import Mathlib

/-!
Shallow embedding of the social-poster repository (Medium/LinkedIn Selenium
automation, schedule reader/dispatcher) and proofs about the claims of its
natural-language specification.

Source files embedded here:
  * src/medium_selenium.py   (content pipeline, retry helpers, publish flow)
  * src/linkedin_selenium.py (stubbed LinkedIn publish flow)
  * src/schedule_reader.py   (schedule parsing, profile/time grouping)
  * src/config.py            (constants)

External collaborators (Selenium WebDriver, the live DOM, wall-clock time)
are modelled by explicit oracles: a value of an oracle type fixes the outcome
of every driver interaction, and the embedded control flow is a function of
that oracle, mirroring the Python statement structure.
-/

/-- Python exceptions that appear in the embedded code paths. -/
inductive PyExc where
  | stale (msg : String)
  | timeout (msg : String)
  | webdriver (msg : String)
  | runtime (msg : String)
  | eof
  | other (msg : String)
deriving DecidableEq, Repr

/-! ### Character-list string helpers

The Python string operations used by the source (substring containment,
lowercasing, strip) are modelled on `List Char`, with `String` wrappers.
Only ASCII case mapping is relevant to the embedded data.
-/

/-- Model of Python lowercasing for the ASCII range. -/
def lowerChar (c : Char) : Char :=
  if 'A' ≤ c ∧ c ≤ 'Z' then Char.ofNat (c.toNat + 32) else c

/-- Lowercase every character. -/
def lowerL (s : List Char) : List Char := s.map lowerChar

/-- Does the second list start with the first list? -/
def leadsWith : List Char → List Char → Bool
  | [], _ => true
  | _ :: _, [] => false
  | a :: as, b :: bs => a = b && leadsWith as bs

/-- Model of the Python `in` substring test: does the needle occur in the hay? -/
def occursIn (needle : List Char) : List Char → Bool
  | [] => leadsWith needle []
  | c :: cs => leadsWith needle (c :: cs) || occursIn needle cs

/-- String wrapper for `occursIn` (Python `needle in hay`). -/
def strHas (hay needle : String) : Bool := occursIn needle.toList hay.toList

/-- Python whitespace test for `str.strip` (ASCII subset). -/
def isPySpace (c : Char) : Bool :=
  c = ' ' ∨ c = '\t' ∨ c = '\n' ∨ c = '\r' ∨ c = '\x0b' ∨ c = '\x0c'

/-- Model of Python `str.strip()` on character lists. -/
def stripL (s : List Char) : List Char :=
  ((s.dropWhile isPySpace).reverse.dropWhile isPySpace).reverse

/-- Model of Python `str.rstrip()` on character lists. -/
def rstripL (s : List Char) : List Char :=
  (s.reverse.dropWhile isPySpace).reverse

/-! ### C8: `type_like_user_resilient` (src/medium_selenium.py lines 195-208)

```
def type_like_user_resilient(driver, css, text):
    if not text:
        return
    attempts = 0
    while attempts < 3:
        try:
            el = get_fresh(driver, css, t=WAIT_MED)
            el.send_keys(text)
            return
        except StaleElementReferenceException:
            attempts += 1
            _log("WARN:RESILIENT_TYPING_STALE refetch element")
    raise StaleElementReferenceException("Failed to send keys after retries")
```

Each loop iteration performs one element lookup (`get_fresh`) followed by one
`send_keys`; the oracle fixes, for each iteration index, whether the pair
succeeded, raised `StaleElementReferenceException`, or raised some other
exception (which the `except` clause does not catch).
-/

/-- Outcome of one lookup-and-send attempt inside the retry loop. -/
inductive TypeOutcome where
  | ok
  | staleRaised
  | excRaised (e : PyExc)
deriving DecidableEq, Repr

/-- Result of the embedded `type_like_user_resilient`: the returned value or
raised exception, the number of element lookups performed, and the number of
times the whole text was successfully sent. -/
structure TypeRun where
  result : Except PyExc Unit
  lookups : Nat
  sends : Nat
deriving Repr

/-- The `while attempts < 3` loop, recursing on the remaining attempt budget.
The iteration at budget `b` is attempt index `3 - b`. -/
def typeResilientLoop (outcome : Nat → TypeOutcome) : Nat → Nat → TypeRun
  | 0, _ => ⟨.error (.stale "Failed to send keys after retries"), 0, 0⟩
  | budget + 1, idx =>
    match outcome idx with
    | .ok => ⟨.ok (), 1, 1⟩
    | .staleRaised =>
      let r := typeResilientLoop outcome budget (idx + 1)
      ⟨r.result, r.lookups + 1, r.sends⟩
    | .excRaised e => ⟨.error e, 1, 0⟩

/-- Embedding of `type_like_user_resilient`. -/
def typeLikeUserResilient (text : String) (outcome : Nat → TypeOutcome) : TypeRun :=
  if text = "" then ⟨.ok (), 0, 0⟩
  else typeResilientLoop outcome 3 0

/-! ### C7: `_load_medium_page` (src/medium_selenium.py lines 254-281)

The oracle fixes, per attempt number (1-based as in the Python
`for attempt in range(1, attempts + 1)`), whether `driver.get` raised a
`WebDriverException` or the page loaded, and in the latter case what
`_is_connection_refused_page` observed.
-/

/-- Outcome of one `driver.get` attempt in `_load_medium_page`. -/
inductive LoadOutcome where
  | getRaises (e : PyExc)
  | loaded (refusedPage : Bool)
deriving DecidableEq, Repr

/-- The message text carried by an embedded exception. -/
def excMsg : PyExc → String
  | .stale m => m
  | .timeout m => m
  | .webdriver m => m
  | .runtime m => m
  | .eof => "EOFError"
  | .other m => m

/-- Python test `"err_connection_refused" in str(exc).lower()`. -/
def connRefusedExc (e : PyExc) : Bool :=
  occursIn "err_connection_refused".toList (lowerL (excMsg e).toList)

/-- Result of `_load_medium_page`: outcome, number of `driver.get` calls, and
number of sleep-and-retry transitions taken. -/
structure LoadRes where
  result : Except PyExc Unit
  gets : Nat
  retries : Nat
deriving Repr

/-- Exception recorded in `last_exc` by a retryable failure. -/
def loadLastExc : LoadOutcome → Option PyExc
  | .getRaises e => some e
  | .loaded true => some (.timeout "Medium connection refused after reload")
  | .loaded false => none

/-- One `_load_medium_page` loop, fuel-recursive over the remaining attempts;
`attempt` is the 1-based attempt number of the current iteration. -/
def loadMediumPageGo (oracle : Nat → LoadOutcome) (attempts : Nat) :
    Nat → Nat → Option PyExc → LoadRes
  | 0, _, lastExc =>
    match lastExc with
    | some e => ⟨.error e, 0, 0⟩
    | none => ⟨.ok (), 0, 0⟩
  | fuel + 1, attempt, _ =>
    match oracle attempt with
    | .getRaises e =>
      if connRefusedExc e ∧ attempt < attempts then
        let r := loadMediumPageGo oracle attempts fuel (attempt + 1) (some e)
        ⟨r.result, r.gets + 1, r.retries + 1⟩
      else ⟨.error e, 1, 0⟩
    | .loaded refused =>
      if refused then
        if attempt < attempts then
          let r := loadMediumPageGo oracle attempts fuel (attempt + 1)
            (some (.timeout "Medium connection refused after reload"))
          ⟨r.result, r.gets + 1, r.retries + 1⟩
        else ⟨.error (.timeout "Medium connection refused after reload"), 1, 0⟩
      else ⟨.ok (), 1, 0⟩

/-- Embedding of `_load_medium_page`. -/
def loadMediumPage (oracle : Nat → LoadOutcome) (attempts : Nat := 3) : LoadRes :=
  loadMediumPageGo oracle attempts attempts 1 none

/-- A retryable failure: connection-refused raise, or a loaded page that
`_is_connection_refused_page` recognizes. -/
def loadRetryable : LoadOutcome → Prop
  | .getRaises e => connRefusedExc e = true
  | .loaded refused => refused = true

instance : DecidablePred loadRetryable := by
  intro o; cases o with
  | getRaises e => exact inferInstanceAs (Decidable (connRefusedExc e = true))
  | loaded r => exact inferInstanceAs (Decidable (r = true))

/-! ### C2: `linkedin_publish_article_selenium` (src/linkedin_selenium.py 37-111)

The body navigates, reads `current_url`, optionally re-reads it after an
`about:blank` wait, uploads a cover image, clicks Next, blocks on `input()`,
fills the title, and then logs that publishing is unsupported and returns
`None`.  Three `except` clauses catch `TimeoutException`,
`WebDriverException` and `Exception` and each returns `None`.
The oracle fixes the outcome of each interaction; any of them may raise.
-/

/-- Driver-interaction outcomes for the LinkedIn flow. -/
structure LIOracle where
  navigate : Option PyExc
  currentUrl : Except PyExc String
  currentUrlAfterWait : Except PyExc String
  uploadImage : Except PyExc Bool
  clickNext : Except PyExc Bool
  consoleInput : Option PyExc
  fillTitle : Except PyExc Bool

/-- The `try` body of `linkedin_publish_article_selenium`; an `.error` result
models an exception escaping to the `except` clauses.  Each Python statement
that can raise is one `match` layer, in source order. -/
def linkedinPublishInner (o : LIOracle) : Except PyExc (Option String) :=
  match o.navigate with
  | some e => .error e
  | none =>
    match o.currentUrl with
    | .error e => .error e
    | .ok url0 =>
      match (if url0 = "about:blank" then o.currentUrlAfterWait else .ok url0) with
      | .error e => .error e
      | .ok url =>
        if ¬ (strHas url "/article") ∧ url ≠ "about:blank" then .ok none
        else
          match o.uploadImage with
          | .error e => .error e
          | .ok uploaded =>
            match (if uploaded then o.clickNext.map (fun _ => ()) else .ok ()) with
            | .error e => .error e
            | .ok _ =>
              match o.consoleInput with
              | some e => .error e
              | none =>
                match o.fillTitle with
                | .error e => .error e
                | .ok _ => .ok none

/-- Embedding of `linkedin_publish_article_selenium`: every exception reaching
the function body's `except` clauses is converted to a `None` return. -/
def linkedinPublishArticleSelenium (o : LIOracle) : Option String :=
  match linkedinPublishInner o with
  | .ok v => v
  | .error _ => none

/-! #### Theorems for C8 -/

set_option linter.unnecessarySeqFocus false in
/-- C8: `type_like_user_resilient` returns immediately without any element
lookup when the text is empty; otherwise it makes at most 3 attempts, each
refetching the element and sending the whole text, retrying only on
`StaleElementReferenceException`; after a third stale attempt it raises
`StaleElementReferenceException`; on success the text was sent exactly once;
a non-stale exception propagates at once. -/
theorem C8_type_like_user_resilient
    (text : String) (outcome : Nat → TypeOutcome) :
    (∀ oc, typeLikeUserResilient "" oc = ⟨.ok (), 0, 0⟩)
    ∧ (typeLikeUserResilient text outcome).lookups ≤ 3
    ∧ (outcome 0 = .staleRaised → outcome 1 = .staleRaised →
        outcome 2 = .staleRaised → text ≠ "" →
        (typeLikeUserResilient text outcome).result
            = .error (.stale "Failed to send keys after retries")
          ∧ (typeLikeUserResilient text outcome).sends = 0
          ∧ (typeLikeUserResilient text outcome).lookups = 3)
    ∧ (∀ k, k < 3 → (∀ i, i < k → outcome i = .staleRaised) → outcome k = .ok →
        text ≠ "" →
        (typeLikeUserResilient text outcome).result = .ok ()
          ∧ (typeLikeUserResilient text outcome).sends = 1
          ∧ (typeLikeUserResilient text outcome).lookups = k + 1)
    ∧ (∀ k e, k < 3 → (∀ i, i < k → outcome i = .staleRaised) →
        outcome k = .excRaised e → text ≠ "" →
        (typeLikeUserResilient text outcome).result = .error e
          ∧ (typeLikeUserResilient text outcome).sends = 0
          ∧ (typeLikeUserResilient text outcome).lookups = k + 1) := by
  refine ⟨fun oc => rfl, ?_, ?_, ?_, ?_⟩
  · by_cases htext : text = ""
    · simp [typeLikeUserResilient, htext]
    · simp only [typeLikeUserResilient, if_neg htext]
      cases h0 : outcome 0 <;> simp [typeResilientLoop, h0] <;>
        cases h1 : outcome 1 <;> simp [typeResilientLoop, h1] <;>
          cases h2 : outcome 2 <;> simp [typeResilientLoop, h2]
  · intro h0 h1 h2 htext
    simp [typeLikeUserResilient, if_neg htext, typeResilientLoop, h0, h1, h2]
  · intro k hk hpre hok htext
    simp only [typeLikeUserResilient, if_neg htext]
    interval_cases k
    · simp [typeResilientLoop, hok]
    · have h0 := hpre 0 (by omega)
      simp [typeResilientLoop, h0, hok]
    · have h0 := hpre 0 (by omega)
      have h1 := hpre 1 (by omega)
      simp [typeResilientLoop, h0, h1, hok]
  · intro k e hk hpre hexc htext
    simp only [typeLikeUserResilient, if_neg htext]
    interval_cases k
    · simp [typeResilientLoop, hexc]
    · have h0 := hpre 0 (by omega)
      simp [typeResilientLoop, h0, hexc]
    · have h0 := hpre 0 (by omega)
      have h1 := hpre 1 (by omega)
      simp [typeResilientLoop, h0, h1, hexc]

/-- Outcome sequence used by the C8 witness: the first attempt goes stale,
the second succeeds. -/
def c8WitnessOutcome : Nat → TypeOutcome :=
  fun i => if i = 0 then .staleRaised else .ok

/-- Witness for C8: on the concrete stale-then-ok outcome sequence the
theorem applies and yields a successful single send after two lookups. -/
theorem C8_type_like_user_resilient_witness :
    (typeLikeUserResilient "x" c8WitnessOutcome).result = .ok ()
      ∧ (typeLikeUserResilient "x" c8WitnessOutcome).sends = 1
      ∧ (typeLikeUserResilient "x" c8WitnessOutcome).lookups = 2 :=
  (C8_type_like_user_resilient "x" c8WitnessOutcome).2.2.2.1 1 (by decide)
    (fun i hi => by interval_cases i; rfl) rfl (by decide)

/-! #### Theorems for C7 -/

/-- Each `_load_medium_page` iteration issues at most one page load, so the
count of `driver.get` calls is bounded by the loop fuel. -/
theorem loadMediumPageGo_gets_le (oracle : Nat → LoadOutcome) (attempts : Nat) :
    ∀ fuel attempt lastExc,
      (loadMediumPageGo oracle attempts fuel attempt lastExc).gets ≤ fuel := by
  intro fuel
  induction fuel with
  | zero =>
    intro attempt lastExc
    cases lastExc <;> simp [loadMediumPageGo]
  | succ n ih =>
    intro attempt lastExc
    cases h : oracle attempt with
    | getRaises e =>
      by_cases hc : connRefusedExc e ∧ attempt < attempts
      · have := ih (attempt + 1) (some e)
        simp only [loadMediumPageGo, h, if_pos hc]
        omega
      · simp [loadMediumPageGo, h, if_neg hc]
    | loaded refused =>
      cases refused with
      | true =>
        by_cases hlt : attempt < attempts
        · have := ih (attempt + 1)
            (some (.timeout "Medium connection refused after reload"))
          simp only [loadMediumPageGo, h, if_pos hlt, if_true]
          omega
        · simp [loadMediumPageGo, h, hlt]
      | false => simp [loadMediumPageGo, h]

/-- Skipping a run of retryable failures: after `j` consecutive retryable
iterations the loop continues at attempt `attempt + j` with `j` more gets and
retries recorded. -/
theorem loadMediumPageGo_skip (oracle : Nat → LoadOutcome) (attempts : Nat) :
    ∀ (j attempt fuel : Nat) (lastExc : Option PyExc),
      (∀ i, attempt ≤ i → i < attempt + j → loadRetryable (oracle i)) →
      attempt + j ≤ attempts → j ≤ fuel →
      ∃ le,
        loadMediumPageGo oracle attempts fuel attempt lastExc =
          ⟨(loadMediumPageGo oracle attempts (fuel - j) (attempt + j) le).result,
           (loadMediumPageGo oracle attempts (fuel - j) (attempt + j) le).gets + j,
           (loadMediumPageGo oracle attempts (fuel - j) (attempt + j) le).retries + j⟩ := by
  intro j
  induction j with
  | zero =>
    intro attempt fuel lastExc _ _ _
    exact ⟨lastExc, rfl⟩
  | succ n ih =>
    intro attempt fuel lastExc hret hle hfuel
    obtain ⟨fuel0, rfl⟩ : ∃ f, fuel = f + 1 := ⟨fuel - 1, by omega⟩
    have hthis : loadRetryable (oracle attempt) := hret attempt le_rfl (by omega)
    have hlt : attempt < attempts := by omega
    have eidx : attempt + (n + 1) = attempt + 1 + n := by omega
    have efuel : fuel0 + 1 - (n + 1) = fuel0 - n := by omega
    cases h : oracle attempt with
    | getRaises e =>
      have hc : connRefusedExc e = true := by
        have := hthis; rw [h] at this; exact this
      obtain ⟨le, hrec⟩ := ih (attempt + 1) fuel0 (some e)
        (fun i h1 h2 => hret i (by omega) (by omega)) (by omega) (by omega)
      refine ⟨le, ?_⟩
      rw [eidx, efuel]
      simp only [loadMediumPageGo, h, if_pos (And.intro hc hlt), hrec]
      simp [Nat.add_assoc]
    | loaded refused =>
      have hrt : refused = true := by
        have := hthis; rw [h] at this; exact this
      subst hrt
      obtain ⟨le, hrec⟩ := ih (attempt + 1) fuel0
        (some (.timeout "Medium connection refused after reload"))
        (fun i h1 h2 => hret i (by omega) (by omega)) (by omega) (by omega)
      refine ⟨le, ?_⟩
      rw [eidx, efuel]
      simp only [loadMediumPageGo, h, if_pos hlt, if_true, hrec]
      simp [Nat.add_assoc]

/-- C7: `_load_medium_page` issues at most `attempts` page loads; it retries
only on a connection-refused condition; after running out of attempts it
raises the last recorded exception; a `WebDriverException` that is not
connection-refused propagates immediately without further attempts; a clean
load returns without raising. -/
theorem C7_load_medium_page (oracle : Nat → LoadOutcome) (attempts : Nat) :
    (loadMediumPage oracle attempts).gets ≤ attempts
    ∧ (∀ k e, k + 1 ≤ attempts →
        (∀ i, 1 ≤ i → i ≤ k → loadRetryable (oracle i)) →
        oracle (k + 1) = .getRaises e → connRefusedExc e = false →
        (loadMediumPage oracle attempts).result = .error e
          ∧ (loadMediumPage oracle attempts).gets = k + 1
          ∧ (loadMediumPage oracle attempts).retries = k)
    ∧ (∀ k, k + 1 ≤ attempts →
        (∀ i, 1 ≤ i → i ≤ k → loadRetryable (oracle i)) →
        oracle (k + 1) = .loaded false →
        (loadMediumPage oracle attempts).result = .ok ()
          ∧ (loadMediumPage oracle attempts).gets = k + 1
          ∧ (loadMediumPage oracle attempts).retries = k)
    ∧ (∀ e, 1 ≤ attempts →
        (∀ i, 1 ≤ i → i ≤ attempts → loadRetryable (oracle i)) →
        loadLastExc (oracle attempts) = some e →
        (loadMediumPage oracle attempts).result = .error e
          ∧ (loadMediumPage oracle attempts).gets = attempts) := by
  refine ⟨loadMediumPageGo_gets_le oracle attempts attempts 1 none, ?_, ?_, ?_⟩
  · intro k e hk hpre hout hnc
    obtain ⟨le, hrw⟩ := loadMediumPageGo_skip oracle attempts k 1 attempts none
      (fun i h1 h2 => hpre i h1 (by omega)) (by omega) (by omega)
    obtain ⟨f0, hf0⟩ : ∃ f, attempts - k = f + 1 := ⟨attempts - k - 1, by omega⟩
    have h1k : 1 + k = k + 1 := by omega
    have hcond : ¬ (connRefusedExc e ∧ k + 1 < attempts) := by
      intro hc; rw [hnc] at hc; exact absurd hc.1 (by simp)
    have hX : loadMediumPageGo oracle attempts (f0 + 1) (k + 1) le = ⟨.error e, 1, 0⟩ := by
      simp [loadMediumPageGo, hout, if_neg hcond]
    unfold loadMediumPage
    rw [hrw, hf0, h1k, hX]
    exact ⟨rfl, by show 1 + k = k + 1; omega, by show 0 + k = k; omega⟩
  · intro k hk hpre hout
    obtain ⟨le, hrw⟩ := loadMediumPageGo_skip oracle attempts k 1 attempts none
      (fun i h1 h2 => hpre i h1 (by omega)) (by omega) (by omega)
    obtain ⟨f0, hf0⟩ : ∃ f, attempts - k = f + 1 := ⟨attempts - k - 1, by omega⟩
    have h1k : 1 + k = k + 1 := by omega
    have hX : loadMediumPageGo oracle attempts (f0 + 1) (k + 1) le = ⟨.ok (), 1, 0⟩ := by
      simp [loadMediumPageGo, hout]
    unfold loadMediumPage
    rw [hrw, hf0, h1k, hX]
    exact ⟨rfl, by show 1 + k = k + 1; omega, by show 0 + k = k; omega⟩
  · intro e hat hpre hlast
    obtain ⟨le, hrw⟩ := loadMediumPageGo_skip oracle attempts (attempts - 1) 1 attempts none
      (fun i h1 h2 => hpre i h1 (by omega)) (by omega) (by omega)
    have hf0 : attempts - (attempts - 1) = 0 + 1 := by omega
    have h1k : 1 + (attempts - 1) = attempts := by omega
    have hfin : loadRetryable (oracle attempts) := hpre attempts hat le_rfl
    have hX : loadMediumPageGo oracle attempts (0 + 1) attempts le = ⟨.error e, 1, 0⟩ := by
      cases h : oracle attempts with
      | getRaises e2 =>
        have he : e2 = e := by
          rw [h] at hlast; simp [loadLastExc] at hlast; exact hlast
        have hcond : ¬ (connRefusedExc e2 ∧ attempts < attempts) := by
          intro hcc; omega
        rw [← he]
        simp [loadMediumPageGo, h, if_neg hcond]
      | loaded refused =>
        have hrt : refused = true := by
          have := hfin; rw [h] at this; exact this
        subst hrt
        have he : PyExc.timeout "Medium connection refused after reload" = e := by
          rw [h] at hlast; simp [loadLastExc] at hlast; exact hlast
        have hcond : ¬ attempts < attempts := by omega
        rw [← he]
        simp [loadMediumPageGo, h, if_neg hcond]
    unfold loadMediumPage
    rw [hrw, hf0, h1k, hX]
    exact ⟨rfl, by show 1 + (attempts - 1) = attempts; omega⟩

/-- Oracle used by the C7 witness: the first attempt raises a
connection-refused `WebDriverException`, the second load succeeds. -/
def c7WitnessOracle : Nat → LoadOutcome :=
  fun i =>
    if i = 1 then .getRaises (.webdriver "net::ERR_CONNECTION_REFUSED") else .loaded false

/-- Witness for C7: with one connection-refused failure and then a clean
load, the embedded loop returns success after exactly two page loads. -/
theorem C7_load_medium_page_witness :
    (loadMediumPage c7WitnessOracle 3).result = .ok ()
      ∧ (loadMediumPage c7WitnessOracle 3).gets = 2
      ∧ (loadMediumPage c7WitnessOracle 3).retries = 1 :=
  (C7_load_medium_page c7WitnessOracle 3).2.2.1 1 (by decide)
    (fun i h1 h2 => by
      have : i = 1 := by omega
      subst this
      simp [c7WitnessOracle, loadRetryable, connRefusedExc, excMsg]
      decide)
    (by decide)

/-- The inner flow only ever completes with the value `None`. -/
theorem linkedinPublishInner_no_url :
    ∀ (o : LIOracle) (v : Option String), linkedinPublishInner o = .ok v → v = none := by
  intro o v h
  unfold linkedinPublishInner at h
  repeat' split at h
  all_goals first
    | (cases h; rfl)
    | cases h

/-- C2: LinkedIn publishing is a stub: for every oracle (driver state and
inputs), `linkedin_publish_article_selenium` returns `None` on every execution
path; it never returns a published-article URL, and every exception raised
inside it is caught and converted to a `None` return. -/
theorem C2_linkedin_publish_always_none (o : LIOracle) :
    linkedinPublishArticleSelenium o = none := by
  unfold linkedinPublishArticleSelenium
  cases h : linkedinPublishInner o with
  | error e => rfl
  | ok v => exact linkedinPublishInner_no_url o v h

/-! ### URL handling: `urlsplit`, `urlunsplit`, `_normalize_medium_url`

`_normalize_medium_url` (src/medium_selenium.py lines 2123-2136) strips the
input, splits it with `urllib.parse.urlsplit`, returns it unchanged when it
has no scheme or no netloc, and otherwise reassembles scheme, netloc and the
path (with a trailing `/edit` removed, and empty path replaced by `/`),
dropping query and fragment.  The stdlib split/unsplit pair is modelled below
for the URL shapes involved.
-/

/-- Shorthand: characters of a string literal. -/
def toL (s : String) : List Char := s.toList

/-- Split a character list at the first character satisfying `p`; the match
character is dropped from the remainder. -/
def breakAtFirst (p : Char → Bool) : List Char → Option (List Char × List Char)
  | [] => none
  | c :: cs =>
    if p c then some ([], cs)
    else
      match breakAtFirst p cs with
      | some (a, b) => some (c :: a, b)
      | none => none

/-- ASCII letter test. -/
def isAsciiAlpha (c : Char) : Bool :=
  ('a' ≤ c ∧ c ≤ 'z') ∨ ('A' ≤ c ∧ c ≤ 'Z')

/-- Characters allowed in a URL scheme (`urllib.parse.scheme_chars`). -/
def isSchemeChar (c : Char) : Bool :=
  isAsciiAlpha c ∨ ('0' ≤ c ∧ c ≤ '9') ∨ c = '+' ∨ c = '-' ∨ c = '.'

/-- Model of `urllib.parse.SplitResult` for the components the code reads. -/
structure SplitRes where
  scheme : List Char
  netloc : List Char
  path : List Char
  query : List Char
  fragment : List Char
deriving Repr, DecidableEq

/-- Model of `urllib.parse.urlsplit`. -/
def urlsplitL (url0 : List Char) : SplitRes :=
  let schemeSplit :=
    match breakAtFirst (fun c => c = ':') url0 with
    | some (before, after) =>
      if (match before with
          | c :: _ => isAsciiAlpha c && before.all isSchemeChar
          | [] => false) then
        (lowerL before, after)
      else (([] : List Char), url0)
    | none => (([] : List Char), url0)
  let scheme := schemeSplit.1
  let url1 := schemeSplit.2
  let netlocSplit :=
    match url1 with
    | '/' :: '/' :: rest =>
      let n := rest.takeWhile (fun c => ¬ (c = '/' ∨ c = '?' ∨ c = '#'))
      let r := rest.dropWhile (fun c => ¬ (c = '/' ∨ c = '?' ∨ c = '#'))
      (n, r)
    | _ => (([] : List Char), url1)
  let netloc := netlocSplit.1
  let url2 := netlocSplit.2
  let fragSplit :=
    match breakAtFirst (fun c => c = '#') url2 with
    | some (a, b) => (a, b)
    | none => (url2, ([] : List Char))
  let querySplit :=
    match breakAtFirst (fun c => c = '?') fragSplit.1 with
    | some (a, b) => (a, b)
    | none => (fragSplit.1, ([] : List Char))
  ⟨scheme, netloc, querySplit.1, querySplit.2, fragSplit.2⟩

/-- Model of `urllib.parse.urlunsplit` with empty query and fragment. -/
def urlunsplitL (scheme netloc path : List Char) : List Char :=
  let url :=
    if netloc ≠ [] ∨ (path ≠ [] ∧ leadsWith (toL "//") path) then
      let p := if path ≠ [] ∧ ¬ leadsWith (toL "/") path then '/' :: path else path
      toL "//" ++ netloc ++ p
    else path
  if scheme ≠ [] then scheme ++ ':' :: url else url

/-- Does the list end with the given suffix? -/
def trailsWith (tail s : List Char) : Bool := leadsWith tail.reverse s.reverse

/-- Embedding of `_normalize_medium_url`. -/
def normalizeMediumUrlL (raw : List Char) : Option (List Char) :=
  if raw = [] then none
  else
    let url := stripL raw
    if url = [] then none
    else
      let parts := urlsplitL url
      if parts.scheme = [] ∨ parts.netloc = [] then some url
      else
        let path0 := if parts.path = [] then toL "/" else parts.path
        let path :=
          if trailsWith (toL "/edit") path0 then
            let cut := path0.take (path0.length - 5)
            if cut = [] then toL "/" else cut
          else path0
        some (urlunsplitL parts.scheme parts.netloc path)

/-! ### C3/C4/C10: the Medium publish flow

`_extract_publish_link` (lines 2139-2151), `_await_publish_url`
(lines 2154-2171) and `medium_publish_article_selenium` (lines 2392-2426).
A `DriverView` is the driver state observed by one poll of the publish-URL
wait (or by the timeout fallback); the oracle fixes the outcome of each step
of the publish flow.
-/

/-- Driver state as observed by `_extract_publish_link` and the wait
condition of `_await_publish_url`: the result of the share-link JavaScript
and of reading `driver.current_url` (`.error` models a raised exception). -/
structure DriverView where
  jsShareLink : Except Unit (List Char)
  currentUrl : Except Unit (List Char)

/-- Embedding of `_extract_publish_link`. -/
def extractPublishLink (d : DriverView) : Option (List Char) :=
  match d.jsShareLink with
  | .ok raw =>
    match normalizeMediumUrlL raw with
    | some url => some url
    | none => none
  | .error _ =>
    match d.currentUrl with
    | .ok cu => normalizeMediumUrlL cu
    | .error _ => none

/-- The share-link branch of the `_await_publish_url` wait condition. -/
def awaitCondLink (d : DriverView) : Option (List Char) :=
  match extractPublishLink d with
  | some l =>
    if l ≠ [] ∧ ¬ occursIn (toL "new-story") l then some l else none
  | none => none

/-- Embedding of the `_condition` closure inside `_await_publish_url`. -/
def awaitCond (d : DriverView) : Option (List Char) :=
  match d.currentUrl with
  | .ok u =>
    if u ≠ [] ∧ ¬ occursIn (toL "new-story") u ∧ ¬ occursIn (toL "/draft") u then
      some (match normalizeMediumUrlL u with
        | some c => if c = [] then u else c
        | none => u)
    else awaitCondLink d
  | .error _ => awaitCondLink d

/-- Embedding of `_await_publish_url`: the wait returns the first truthy
condition value among the polled driver states; on timeout the `except`
clause returns `_extract_publish_link` of the final state. -/
def awaitPublishUrl (polls : List DriverView) (finalView : DriverView) :
    Option (List Char) :=
  match polls.findSome? awaitCond with
  | some r => some r
  | none => extractPublishLink finalView

/-- Constant `MEDIUM_SELENIUM_RETRIES` from src/config.py line 46
(commented there as the number of re-attempts on failure). -/
def mediumSeleniumRetriesConst : Nat := 1

/-- Steps of the publish flow, in the order the function body invokes them. -/
inductive MediumStep where
  | openEditor
  | fillTitleAndBody
  | waitPublishReady
  | openPublishAndFill
  | clickPublishConfirm
  | detectQuotaBlock
  | awaitUrl
deriving DecidableEq, Repr

/-- Oracle for one pass through the `medium_publish_article_selenium` body. -/
structure MediumOracle where
  openEditor : Option PyExc
  fillTitleAndBody : Option PyExc
  waitReady : Except PyExc Bool
  openPublishAndFill : Option PyExc
  clickConfirm : Except PyExc Bool
  quotaBlocked : Bool
  awaitPolls : List DriverView
  finalView : DriverView

/-- The `try` body of `medium_publish_article_selenium`, with the trace of
steps actually performed.  A `some`/`.error` oracle entry models that step
raising; the quota check raises
`RuntimeError("Medium publish quota exceeded (3 posts per 24 hours).")`. -/
def mediumPublishFlow (o : MediumOracle) :
    Except PyExc (Option (List Char)) × List MediumStep :=
  match o.openEditor with
  | some e => (.error e, [.openEditor])
  | none =>
    match o.fillTitleAndBody with
    | some e => (.error e, [.openEditor, .fillTitleAndBody])
    | none =>
      match o.waitReady with
      | .error e => (.error e, [.openEditor, .fillTitleAndBody, .waitPublishReady])
      | .ok _ =>
        match o.openPublishAndFill with
        | some e =>
          (.error e,
           [.openEditor, .fillTitleAndBody, .waitPublishReady, .openPublishAndFill])
        | none =>
          match o.clickConfirm with
          | .error e =>
            (.error e,
             [.openEditor, .fillTitleAndBody, .waitPublishReady, .openPublishAndFill,
              .clickPublishConfirm])
          | .ok _ =>
            if o.quotaBlocked then
              (.error (.runtime "Medium publish quota exceeded (3 posts per 24 hours)."),
               [.openEditor, .fillTitleAndBody, .waitPublishReady, .openPublishAndFill,
                .clickPublishConfirm, .detectQuotaBlock])
            else
              (.ok (awaitPublishUrl o.awaitPolls o.finalView),
               [.openEditor, .fillTitleAndBody, .waitPublishReady, .openPublishAndFill,
                .clickPublishConfirm, .detectQuotaBlock, .awaitUrl])

set_option linter.unusedVariables false in
/-- Embedding of `medium_publish_article_selenium`.  The `retries` parameter
(defaulted to `MEDIUM_SELENIUM_RETRIES`) is accepted but, exactly as in the
source, never read: the `except` clause logs and re-raises, so the body runs
exactly once and any exception propagates. -/
def mediumPublishArticleSelenium (o : MediumOracle)
    (retries : Nat := mediumSeleniumRetriesConst) :
    Except PyExc (Option (List Char)) × List MediumStep :=
  mediumPublishFlow o

/-- Number of editor-opening attempts the call performed. -/
def mediumPublishAttempts (o : MediumOracle) (retries : Nat) : Nat :=
  ((mediumPublishArticleSelenium o retries).2.count .openEditor)

/-! #### Theorems for C4 -/

/-- Oracle on which the very first step of the publish flow (opening the
editor) raises a `WebDriverException`. -/
def c4FailingOracle : MediumOracle where
  openEditor := some (.webdriver "chrome not reachable")
  fillTitleAndBody := none
  waitReady := .ok true
  openPublishAndFill := none
  clickConfirm := .ok true
  quotaBlocked := false
  awaitPolls := []
  finalView := ⟨.error (), .error ()⟩

/-- C4: `medium_publish_article_selenium` does not retry.  On the failing
oracle (the editor load raises) with `retries = MEDIUM_SELENIUM_RETRIES = 1`
the exception propagates after a single attempt, and for every oracle and
every `retries` value the body opens the editor exactly once: the `retries`
parameter is accepted but never used, and no delay or further attempt
happens before the failure reaches the caller. -/
theorem C4_publish_no_retry :
    (mediumPublishArticleSelenium c4FailingOracle mediumSeleniumRetriesConst).1
        = .error (.webdriver "chrome not reachable")
      ∧ mediumPublishAttempts c4FailingOracle mediumSeleniumRetriesConst = 1
      ∧ ∀ (o : MediumOracle) (retries : Nat), mediumPublishAttempts o retries = 1 := by
  refine ⟨rfl, rfl, ?_⟩
  intro o retries
  unfold mediumPublishAttempts mediumPublishArticleSelenium mediumPublishFlow
  repeat' split
  all_goals rfl

/-! #### Theorems for C10 -/

/-- C10: if the flow reaches the quota check (no earlier step raised) and
`_detect_publish_quota_block` reports the three-stories-per-24-hours warning
overlay, then `medium_publish_article_selenium` raises
`RuntimeError("Medium publish quota exceeded (3 posts per 24 hours).")` and
does not return a URL. -/
theorem C10_publish_quota_block (o : MediumOracle) (retries : Nat)
    (h1 : o.openEditor = none) (h2 : o.fillTitleAndBody = none)
    (h3 : ∃ b, o.waitReady = .ok b) (h4 : o.openPublishAndFill = none)
    (h5 : ∃ b, o.clickConfirm = .ok b) (hq : o.quotaBlocked = true) :
    (mediumPublishArticleSelenium o retries).1
        = .error (.runtime "Medium publish quota exceeded (3 posts per 24 hours).")
      ∧ ∀ url, (mediumPublishArticleSelenium o retries).1 ≠ .ok url := by
  obtain ⟨b3, hb3⟩ := h3
  obtain ⟨b5, hb5⟩ := h5
  have hflow : (mediumPublishArticleSelenium o retries).1
      = .error (.runtime "Medium publish quota exceeded (3 posts per 24 hours).") := by
    unfold mediumPublishArticleSelenium mediumPublishFlow
    rw [h1, h2, hb3, h4, hb5, hq]
    rfl
  refine ⟨hflow, fun url h => ?_⟩
  rw [hflow] at h
  cases h

/-- Oracle for the C10 witness: every step succeeds and the quota warning
overlay is detected. -/
def c10Oracle : MediumOracle where
  openEditor := none
  fillTitleAndBody := none
  waitReady := .ok true
  openPublishAndFill := none
  clickConfirm := .ok true
  quotaBlocked := true
  awaitPolls := []
  finalView := ⟨.error (), .error ()⟩

/-- Witness for C10 at the concrete quota-blocked oracle. -/
theorem C10_publish_quota_block_witness :
    (mediumPublishArticleSelenium c10Oracle 1).1
        = .error (.runtime "Medium publish quota exceeded (3 posts per 24 hours).")
      ∧ ∀ url, (mediumPublishArticleSelenium c10Oracle 1).1 ≠ .ok url :=
  C10_publish_quota_block c10Oracle 1 rfl rfl ⟨true, rfl⟩ rfl ⟨true, rfl⟩ rfl

/-! #### Theorems for C3 -/

/-- A successful publish-flow result carries exactly the awaited URL. -/
theorem mediumPublishFlow_ok (o : MediumOracle) (v : Option (List Char))
    (h : (mediumPublishFlow o).1 = .ok v) :
    v = awaitPublishUrl o.awaitPolls o.finalView := by
  unfold mediumPublishFlow at h
  cases h1 : o.openEditor with
  | some e =>
    rw [h1] at h
    exact Except.noConfusion (show (Except.error e : Except PyExc (Option (List Char))) = .ok v from h)
  | none =>
    rw [h1] at h
    cases h2 : o.fillTitleAndBody with
    | some e =>
      rw [h2] at h
      exact Except.noConfusion (show (Except.error e : Except PyExc (Option (List Char))) = .ok v from h)
    | none =>
      rw [h2] at h
      cases h3 : o.waitReady with
      | error e =>
        rw [h3] at h
        exact Except.noConfusion (show (Except.error e : Except PyExc (Option (List Char))) = .ok v from h)
      | ok b =>
        rw [h3] at h
        cases h4 : o.openPublishAndFill with
        | some e =>
          rw [h4] at h
          exact Except.noConfusion (show (Except.error e : Except PyExc (Option (List Char))) = .ok v from h)
        | none =>
          rw [h4] at h
          cases h5 : o.clickConfirm with
          | error e =>
            rw [h5] at h
            exact Except.noConfusion (show (Except.error e : Except PyExc (Option (List Char))) = .ok v from h)
          | ok c =>
            rw [h5] at h
            by_cases hq : o.quotaBlocked
            · rw [if_pos hq] at h
              exact Except.noConfusion
                (show (Except.error (PyExc.runtime "Medium publish quota exceeded (3 posts per 24 hours).") : Except PyExc (Option (List Char))) = .ok v from h)
            · rw [if_neg hq] at h
              exact (Except.ok.inj
                (show Except.ok (awaitPublishUrl o.awaitPolls o.finalView)
                    = Except.ok v from h)).symm

/-- A `findSome?` success comes from some list element. -/
theorem findSome?_mem {α β : Type} (f : α → Option β) :
    ∀ (l : List α) (b : β), l.findSome? f = some b → ∃ a ∈ l, f a = some b := by
  intro l
  induction l with
  | nil => intro b h; cases h
  | cons x xs ih =>
    intro b h
    rw [List.findSome?_cons] at h
    cases hx : f x with
    | some v =>
      rw [hx] at h
      cases h
      exact ⟨x, List.mem_cons_self x xs, hx⟩
    | none =>
      rw [hx] at h
      obtain ⟨a, ha, hfa⟩ := ih b h
      exact ⟨a, List.mem_cons_of_mem x ha, hfa⟩

/-- Driver view the publish-URL wait keeps observing in the C3
counterexample: the browser never leaves the draft editor. -/
def c3DraftView : DriverView :=
  ⟨.ok (toL "https://medium.com/new-story"), .ok (toL "https://medium.com/new-story")⟩

/-- Oracle for the C3 counterexample: every flow step succeeds, no quota
block, but the page stays on the `new-story` editor, so the wait times out
and the fallback link is returned unchecked. -/
def c3Oracle : MediumOracle where
  openEditor := none
  fillTitleAndBody := none
  waitReady := .ok true
  openPublishAndFill := none
  clickConfirm := .ok true
  quotaBlocked := false
  awaitPolls := [c3DraftView]
  finalView := c3DraftView

/-- C3 counterexample: `medium_publish_article_selenium` returns a non-None
URL that still contains `new-story` (the draft editor URL), because the
timeout fallback of `_await_publish_url` returns `_extract_publish_link`
without any draft-editor check. -/
theorem C3_counterexample :
    (mediumPublishArticleSelenium c3Oracle mediumSeleniumRetriesConst).1
        = .ok (some (toL "https://medium.com/new-story"))
      ∧ occursIn (toL "new-story") (toL "https://medium.com/new-story") = true := by
  exact ⟨rfl, by decide⟩

/-- C3 amended: a non-None URL returned by the publish flow comes from
`_await_publish_url`: either a polled wait condition succeeded — which
requires a truthy current URL containing neither `new-story` nor `/draft`,
or a share link that does not contain `new-story` — or every poll failed and
the timeout fallback returned `_extract_publish_link` of the final driver
state unchecked (which may still be a draft-editor URL). -/
theorem C3_publish_url_provenance :
    (∀ (o : MediumOracle) (retries : Nat) (url : List Char),
        (mediumPublishArticleSelenium o retries).1 = .ok (some url) →
        (∃ d ∈ o.awaitPolls, awaitCond d = some url)
          ∨ (o.awaitPolls.findSome? awaitCond = none
              ∧ extractPublishLink o.finalView = some url))
    ∧ (∀ (d : DriverView) (url : List Char), awaitCond d = some url →
        (∃ u, d.currentUrl = .ok u ∧ u ≠ []
            ∧ occursIn (toL "new-story") u = false
            ∧ occursIn (toL "/draft") u = false
            ∧ url = (match normalizeMediumUrlL u with
                | some c => if c = [] then u else c
                | none => u))
          ∨ (extractPublishLink d = some url
              ∧ url ≠ [] ∧ occursIn (toL "new-story") url = false)) := by
  constructor
  · intro o retries url h
    have hurl : awaitPublishUrl o.awaitPolls o.finalView = some url :=
      (mediumPublishFlow_ok o (some url) h).symm
    unfold awaitPublishUrl at hurl
    cases hf : o.awaitPolls.findSome? awaitCond with
    | some r =>
      rw [hf] at hurl
      cases hurl
      exact .inl (findSome?_mem awaitCond o.awaitPolls url hf)
    | none =>
      rw [hf] at hurl
      exact .inr ⟨rfl, hurl⟩
  · intro d url h
    unfold awaitCond at h
    cases hc : d.currentUrl with
    | ok u =>
      rw [hc] at h
      dsimp only at h
      by_cases hok : u ≠ [] ∧ ¬ occursIn (toL "new-story") u ∧ ¬ occursIn (toL "/draft") u
      · rw [if_pos hok] at h
        cases h
        exact .inl ⟨u, rfl, hok.1, by simpa using hok.2.1, by simpa using hok.2.2, rfl⟩
      · rw [if_neg hok] at h
        unfold awaitCondLink at h
        cases he : extractPublishLink d with
        | some l =>
          rw [he] at h
          dsimp only at h
          by_cases hl : l ≠ [] ∧ ¬ occursIn (toL "new-story") l
          · rw [if_pos hl] at h
            cases h
            exact .inr ⟨rfl, hl.1, by simpa using hl.2⟩
          · rw [if_neg hl] at h; cases h
        | none => rw [he] at h; dsimp only at h; cases h
    | error e =>
      rw [hc] at h
      dsimp only at h
      unfold awaitCondLink at h
      cases he : extractPublishLink d with
      | some l =>
        rw [he] at h
        dsimp only at h
        by_cases hl : l ≠ [] ∧ ¬ occursIn (toL "new-story") l
        · rw [if_pos hl] at h
          cases h
          exact .inr ⟨rfl, hl.1, by simpa using hl.2⟩
        · rw [if_neg hl] at h; cases h
      | none => rw [he] at h; dsimp only at h; cases h

/-- Driver view for the C3 witness: a clean published-story URL. -/
def c3PublishedView : DriverView :=
  ⟨.error (), .ok (toL "https://medium.com/p/abc123")⟩

/-- Witness for the amended C3: instantiating the provenance theorem at a
concrete succeeding wait condition. -/
theorem C3_publish_url_provenance_witness :
    (∃ u, c3PublishedView.currentUrl = .ok u ∧ u ≠ []
        ∧ occursIn (toL "new-story") u = false
        ∧ occursIn (toL "/draft") u = false
        ∧ toL "https://medium.com/p/abc123" = (match normalizeMediumUrlL u with
            | some c => if c = [] then u else c
            | none => u))
      ∨ (extractPublishLink c3PublishedView = some (toL "https://medium.com/p/abc123")
          ∧ toL "https://medium.com/p/abc123" ≠ []
          ∧ occursIn (toL "new-story") (toL "https://medium.com/p/abc123") = false) :=
  C3_publish_url_provenance.2 c3PublishedView (toL "https://medium.com/p/abc123") (by decide)

/-! ### Generic insertion-ordered grouping

`_group_jobs_by_profile` and `_group_jobs_by_time` both use
`defaultdict(list)`: `grouped[key].append(job)`.  A Python dict preserves
insertion order of keys, so the grouping is modelled as an association list
to which `updateGroups` appends. -/

/-- One `grouped[key].append(item)` step on an insertion-ordered dict. -/
def updateGroups {κ α : Type} [DecidableEq κ] :
    List (κ × List α) → κ → α → List (κ × List α)
  | [], k, a => [(k, [a])]
  | (k0, l) :: rest, k, a =>
    if k0 = k then (k0, l ++ [a]) :: rest
    else (k0, l) :: updateGroups rest k a

/-- The grouping loop over a list of items. -/
def groupByKey {κ α : Type} [DecidableEq κ] (key : α → κ) (xs : List α) :
    List (κ × List α) :=
  xs.foldl (fun acc x => updateGroups acc (key x) x) []

/-- Key order after an update: unchanged when the key exists, appended
otherwise. -/
theorem updateGroups_keys {κ α : Type} [DecidableEq κ] (k : κ) (a : α) :
    ∀ gs : List (κ × List α),
      (updateGroups gs k a).map Prod.fst =
        if k ∈ gs.map Prod.fst then gs.map Prod.fst else gs.map Prod.fst ++ [k] := by
  intro gs
  induction gs with
  | nil => simp [updateGroups]
  | cons p rest ih =>
    obtain ⟨k0, l⟩ := p
    by_cases hk : k0 = k
    · subst hk
      simp [updateGroups]
    · simp only [updateGroups, if_neg hk, List.map_cons, ih]
      by_cases hmem : k ∈ rest.map Prod.fst
      · rw [if_pos hmem, if_pos (by simp [hmem])]
      · rw [if_neg hmem,
          if_neg (by
            simp only [List.mem_cons, not_or]
            exact ⟨fun h => hk h.symm, hmem⟩),
          List.cons_append]

/-- Membership in an updated grouping, assuming the keys are distinct:
either the entry is the (fresh or extended) entry of the updated key, or it
is an untouched entry of a different key. -/
theorem updateGroups_mem {κ α : Type} [DecidableEq κ] (k : κ) (a : α) :
    ∀ gs : List (κ × List α), (gs.map Prod.fst).Nodup →
      ∀ p ∈ updateGroups gs k a,
        (p.1 = k ∧ ((k ∉ gs.map Prod.fst ∧ p.2 = [a])
            ∨ (∃ l0, (k, l0) ∈ gs ∧ p.2 = l0 ++ [a])))
          ∨ (p.1 ≠ k ∧ p ∈ gs) := by
  intro gs
  induction gs with
  | nil =>
    intro _ p hp
    simp only [updateGroups, List.mem_singleton] at hp
    subst hp
    exact .inl ⟨rfl, .inl ⟨by simp, rfl⟩⟩
  | cons q rest ih =>
    obtain ⟨k0, l⟩ := q
    intro hnd p hp
    have hnd0 : k0 ∉ rest.map Prod.fst := by
      have := hnd; simp only [List.map_cons, List.nodup_cons] at this; exact this.1
    have hndr : (rest.map Prod.fst).Nodup := by
      have := hnd; simp only [List.map_cons, List.nodup_cons] at this; exact this.2
    by_cases hk : k0 = k
    · subst hk
      rw [updateGroups, if_pos rfl] at hp
      rcases List.mem_cons.mp hp with hphead | hprest
      · subst hphead
        exact .inl ⟨rfl, .inr ⟨l, List.mem_cons_self _ _, rfl⟩⟩
      · have hne : p.1 ≠ k0 := by
          intro hcontra
          exact hnd0 (hcontra ▸ List.mem_map_of_mem Prod.fst hprest)
        exact .inr ⟨hne, List.mem_cons_of_mem _ hprest⟩
    · rw [updateGroups, if_neg hk] at hp
      rcases List.mem_cons.mp hp with hphead | hprest
      · subst hphead
        exact .inr ⟨fun hcontra => hk hcontra, List.mem_cons_self _ _⟩
      · rcases ih hndr p hprest with ⟨hpk, hrest⟩ | hright
        · refine .inl ⟨hpk, ?_⟩
          rcases hrest with hfresh | hex
          · refine .inl ⟨?_, hfresh.2⟩
            simp only [List.map_cons, List.mem_cons, not_or]
            exact ⟨fun h => hk h.symm, hfresh.1⟩
          · obtain ⟨l0, hl0, hpl⟩ := hex
            exact .inr ⟨l0, List.mem_cons_of_mem _ hl0, hpl⟩
        · exact .inr ⟨hright.1, List.mem_cons_of_mem _ hright.2⟩

/-- What the grouping loop computes over the processed items: distinct keys,
each group the order-preserving filter of the processed items by its key,
every processed item covered, every key inhabited. -/
def GroupsSpec {κ α : Type} [DecidableEq κ] (key : α → κ)
    (processed : List α) (gs : List (κ × List α)) : Prop :=
  (gs.map Prod.fst).Nodup
  ∧ (∀ p ∈ gs, p.2 = processed.filter (fun x => decide (key x = p.1)))
  ∧ (∀ x ∈ processed, key x ∈ gs.map Prod.fst)
  ∧ (∀ k ∈ gs.map Prod.fst, ∃ x ∈ processed, key x = k)

/-- One append step preserves the grouping specification. -/
theorem updateGroups_spec {κ α : Type} [DecidableEq κ] (key : α → κ)
    (processed : List α) (gs : List (κ × List α)) (a : α)
    (h : GroupsSpec key processed gs) :
    GroupsSpec key (processed ++ [a]) (updateGroups gs (key a) a) := by
  obtain ⟨hnd, hfil, hcov, hsur⟩ := h
  have hkeys := updateGroups_keys (key a) a gs
  refine ⟨?_, ?_, ?_, ?_⟩
  · rw [hkeys]
    by_cases hmem : key a ∈ gs.map Prod.fst
    · rwa [if_pos hmem]
    · rw [if_neg hmem]
      exact List.nodup_append.mpr
        ⟨hnd, List.nodup_singleton _, by simpa [List.disjoint_singleton] using hmem⟩
  · intro p hp
    rcases updateGroups_mem (key a) a gs hnd p hp with ⟨hpk, hbody⟩ | ⟨hpk, hpgs⟩
    · rcases hbody with ⟨hfresh, hpl⟩ | ⟨l0, hl0, hpl⟩
      · have hnone : processed.filter (fun x => decide (key x = p.1)) = [] := by
          rw [List.filter_eq_nil_iff]
          intro x hx hcontra
          have : key x = key a := by
            rw [hpk] at hcontra
            simpa using hcontra
          exact hfresh (this ▸ hcov x hx)
        rw [List.filter_append, hnone, hpl, List.nil_append]
        simp [hpk]
      · have hl0eq := hfil (key a, l0) hl0
        simp only at hl0eq
        rw [List.filter_append, hpk] at *
        rw [hpl, hl0eq]
        simp
    · have hpeq := hfil p hpgs
      rw [List.filter_append, ← hpeq]
      have hdec : decide (key a = p.1) = false := by
        simp only [decide_eq_false_iff_not]
        intro hcontra
        exact hpk hcontra.symm
      have : List.filter (fun x => decide (key x = p.1)) [a] = [] := by
        simp [List.filter, hdec]
      rw [this, List.append_nil]
  · intro x hx
    rcases List.mem_append.mp hx with hxp | hxa
    · have := hcov x hxp
      rw [hkeys]
      by_cases hmem : key a ∈ gs.map Prod.fst
      · rwa [if_pos hmem]
      · rw [if_neg hmem]; exact List.mem_append_left _ this
    · have hxa2 : x = a := by simpa using hxa
      subst hxa2
      rw [hkeys]
      by_cases hmem : key x ∈ gs.map Prod.fst
      · rwa [if_pos hmem]
      · rw [if_neg hmem]; exact List.mem_append_right _ (by simp)
  · intro k hk
    rw [hkeys] at hk
    by_cases hmem : key a ∈ gs.map Prod.fst
    · rw [if_pos hmem] at hk
      obtain ⟨x, hx, hkx⟩ := hsur k hk
      exact ⟨x, List.mem_append_left _ hx, hkx⟩
    · rw [if_neg hmem] at hk
      rcases List.mem_append.mp hk with hold | hnew
      · obtain ⟨x, hx, hkx⟩ := hsur k hold
        exact ⟨x, List.mem_append_left _ hx, hkx⟩
      · have : k = key a := by simpa using hnew
        exact ⟨a, List.mem_append_right _ (by simp), this.symm⟩

/-- The grouping loop satisfies its specification. -/
theorem groupByKey_spec {κ α : Type} [DecidableEq κ] (key : α → κ) (xs : List α) :
    GroupsSpec key xs (groupByKey key xs) := by
  suffices h : ∀ (ys : List α) (processed : List α) (gs : List (κ × List α)),
      GroupsSpec key processed gs →
      GroupsSpec key (processed ++ ys)
        (ys.foldl (fun acc x => updateGroups acc (key x) x) gs) by
    have := h xs [] [] ⟨List.nodup_nil, by simp, by simp, by simp⟩
    simpa [groupByKey] using this
  intro ys
  induction ys with
  | nil =>
    intro processed gs h
    simpa using h
  | cons x ys ih =>
    intro processed gs h
    have h2 := updateGroups_spec key processed gs x h
    have h3 := ih (processed ++ [x]) _ h2
    simpa [List.append_assoc] using h3

/-! ### C5: `_group_jobs_by_profile` / `resolve_profile_path` /
`_dispatch_time_slot` (src/schedule_reader.py lines 296-307, 342-348,
368-390)

`resolve_profile_path` manipulates `pathlib` Windows paths.  A Windows path
is modelled as optional drive, rootedness, and the list of components after
dropping empty and `.` entries, matching `PureWindowsPath` parsing for the
drive-letter paths the code uses (UNC paths and per-user `~name` expansion
are outside the data this code handles; `expanduser` is modelled for the
bare `~`). -/

/-- Model of a `pathlib.PureWindowsPath`. -/
structure WinPath where
  drive : List Char
  root : Bool
  parts : List (List Char)
deriving Repr, DecidableEq

/-- Parse a string into a Windows path (forward slashes are separators
too; empty and `.` components are dropped). -/
def winParse (raw : List Char) : WinPath :=
  let s := raw.map (fun c => if c = '/' then '\\' else c)
  let pieces := fun (t : List Char) =>
    (t.splitOn '\\').filter (fun p => decide (p ≠ [] ∧ p ≠ ['.']))
  match s with
  | a :: ':' :: rest =>
    if isAsciiAlpha a then ⟨[a, ':'], leadsWith ['\\'] rest, pieces rest⟩
    else ⟨[], leadsWith ['\\'] s, pieces s⟩
  | _ => ⟨[], leadsWith ['\\'] s, pieces s⟩

/-- Model of `str(path)` for a Windows path. -/
def winStr (p : WinPath) : List Char :=
  if p.drive = [] ∧ p.root = false ∧ p.parts = [] then toL "."
  else p.drive ++ (if p.root then ['\\'] else []) ++ List.intercalate ['\\'] p.parts

/-- Model of `PureWindowsPath.is_absolute`: drive and root present. -/
def winIsAbsolute (p : WinPath) : Bool := p.drive ≠ [] ∧ p.root

/-- Model of the `/` join operator on Windows paths. -/
def winJoin (a b : WinPath) : WinPath :=
  if b.drive ≠ [] then b
  else if b.root then ⟨a.drive, true, b.parts⟩
  else ⟨a.drive, a.root, a.parts ++ b.parts⟩

/-- Model of `path.name`: the final component, or empty. -/
def winName (p : WinPath) : List Char := (p.parts.getLast?).getD []

/-- Model of `Path.expanduser` for a bare leading `~` (the only form the
schedule data can sensibly contain); `home` is the environment home
directory. -/
def expandUserW (home : List Char) (p : WinPath) : WinPath :=
  match p.parts with
  | t :: rest =>
    if p.drive = [] ∧ p.root = false ∧ t = ['~'] then
      let h := winParse home
      ⟨h.drive, h.root, h.parts ++ rest⟩
    else p
  | [] => p

/-- `CHROME_USER_DATA_DIR` from src/config.py line 7. -/
def CHROME_USER_DATA_DIR : String := "D:\\TOOL\\Autopost social\\profile medium"

/-- The `profiles_root` literal inside `resolve_profile_path`. -/
def scheduleProfilesRoot : String := "D:\\TOOL\\social-poster\\profiles"

/-- The `ScheduleJob` dataclass of src/schedule_reader.py (lines 250-262);
`type` is a Python keyword-free field name spelled `jobType` here. -/
structure ScheduleJob where
  platform : String
  profile : String
  jobType : String
  title : String
  content : String
  images : String
  schedule_time : String
  schedule_date : String
  link : String
  row_index : Nat
deriving Repr, DecidableEq

/-- Embedding of `ScheduleJob.resolve_profile_path`; `home` models the
environment value `Path.expanduser` consults. -/
def resolveProfilePath (home : List Char) (job : ScheduleJob) : List Char :=
  let base := expandUserW home (winParse (toL CHROME_USER_DATA_DIR))
  let profilesRoot := winParse (toL scheduleProfilesRoot)
  let value := stripL (toL job.profile)
  if value = [] then winStr base
  else
    let path0 := expandUserW home (winParse value)
    let path1 :=
      if ¬ winIsAbsolute path0 then winJoin profilesRoot (winParse value) else path0
    let path2 :=
      if ¬ leadsWith (lowerL (winStr profilesRoot)) (lowerL (winStr path1)) then
        winJoin profilesRoot (winParse (winName path1))
      else path1
    winStr path2

/-- The grouping key of `_group_jobs_by_profile`:
`resolved.strip().lower() or "default"`. -/
def profileKey (home : List Char) (job : ScheduleJob) : List Char :=
  let k := lowerL (stripL (resolveProfilePath home job))
  if k = [] then toL "default" else k

/-- Embedding of `_group_jobs_by_profile`. -/
def groupJobsByProfile (home : List Char) (jobs : List ScheduleJob) :
    List (List Char × List ScheduleJob) :=
  groupByKey (profileKey home) jobs

/-- A worker process started by `_dispatch_time_slot`. -/
structure StartedProc where
  groupId : List Char
  jobs : List ScheduleJob
deriving Repr, DecidableEq

/-- Embedding of `_dispatch_time_slot`: the loop over `grouped.items()`
starts exactly one `Process(target=_profile_worker, ...)` per group (the
inner `while` merely waits for a concurrency slot). -/
def dispatchTimeSlot (home : List Char) (jobs : List ScheduleJob) :
    List StartedProc :=
  (groupJobsByProfile home jobs).foldl (fun ps g => ps ++ [⟨g.1, g.2⟩]) []

/-- Appending-fold over groups is the map over groups. -/
theorem foldl_append_map {α β : Type} (f : α → β) :
    ∀ (l : List α) (acc : List β),
      l.foldl (fun ps g => ps ++ [f g]) acc = acc ++ l.map f := by
  intro l
  induction l with
  | nil => intro acc; simp
  | cons x xs ih =>
    intro acc
    simp only [List.foldl_cons, ih, List.map_cons]
    simp

/-- C5: `_group_jobs_by_profile` partitions the job list: group keys are
distinct; each group is the order-preserving sublist of the input with that
key; a job is in a group exactly when it is an input job whose key — the
case-insensitively compared resolved profile path, with the empty value
mapped to `default` — equals the group key; every input job's key is a
group; and `_dispatch_time_slot` starts exactly one worker process per
group, in group order. -/
theorem C5_group_jobs_by_profile (home : List Char) (jobs : List ScheduleJob) :
    ((groupJobsByProfile home jobs).map Prod.fst).Nodup
    ∧ (∀ p ∈ groupJobsByProfile home jobs,
        p.2 = jobs.filter (fun j => decide (profileKey home j = p.1)))
    ∧ (∀ p ∈ groupJobsByProfile home jobs, ∀ j,
        j ∈ p.2 ↔ (j ∈ jobs ∧ profileKey home j = p.1))
    ∧ (∀ j ∈ jobs, profileKey home j ∈ (groupJobsByProfile home jobs).map Prod.fst)
    ∧ (dispatchTimeSlot home jobs).map (fun pr => (pr.groupId, pr.jobs))
        = groupJobsByProfile home jobs := by
  obtain ⟨hnd, hfil, hcov, hsur⟩ := groupByKey_spec (profileKey home) jobs
  refine ⟨hnd, hfil, ?_, hcov, ?_⟩
  · intro p hp j
    rw [hfil p hp, List.mem_filter]
    simp
  · rw [dispatchTimeSlot, foldl_append_map]
    simp only [List.nil_append]
    rw [List.map_map]
    have hcomp : (fun pr : StartedProc => (pr.groupId, pr.jobs)) ∘
        (fun g : List Char × List ScheduleJob => (⟨g.1, g.2⟩ : StartedProc)) = id := by
      funext g; rfl
    rw [hcomp, List.map_id]

/-- Home directory used by the C5 witness. -/
def c5Home : List Char := toL "C:\\Users\\user"

/-- First witness job (profile `alice`). -/
def c5JobA : ScheduleJob := ⟨"Medium", "alice", "medium", "T1", "", "", "", "", "", 2⟩

/-- Second witness job (profile `ALICE`, differing only in case). -/
def c5JobB : ScheduleJob := ⟨"Medium", "ALICE", "medium", "T2", "", "", "", "", "", 3⟩

/-- Witness for C5: on two jobs whose profiles differ only in case, the
theorem instantiates at the single group both land in. -/
theorem C5_group_jobs_by_profile_witness :
    c5JobB ∈ (toL "d:\\tool\\social-poster\\profiles\\alice",
        [c5JobA, c5JobB]).2
      ↔ (c5JobB ∈ [c5JobA, c5JobB]
          ∧ profileKey c5Home c5JobB = toL "d:\\tool\\social-poster\\profiles\\alice") :=
  (C5_group_jobs_by_profile c5Home [c5JobA, c5JobB]).2.2.1
    (toL "d:\\tool\\social-poster\\profiles\\alice", [c5JobA, c5JobB]) (by decide) c5JobB

/-! ### C6: `_parse_schedule_timestamp` and `_group_jobs_by_time`
(src/schedule_reader.py lines 41-46, 103-131, 393-424)

`datetime.strptime` is modelled per directive with CPython's `TimeRE`
patterns: `%H` is `2[0-3]|[0-1]\d|\d`, `%M`/`%S` are `[0-5]\d|\d`, `%d` is
`3[01]|[12]\d|0[1-9]|[1-9]`, `%m` is `1[0-2]|0[1-9]|[1-9]`, `%Y` is four
digits, literal whitespace matches a nonempty whitespace run, other
literals match exactly; the full input must be consumed, and the resulting
calendar date must be constructible (`datetime` raises `ValueError` on
e.g. Feb 29 of a non-leap year).  In the formats used here every numeric
field is followed by a non-digit or the end, so the greedy two-digit-first
match coincides with the regex semantics. -/

/-- A `datetime.datetime` value (the fields this code reads). -/
structure PyDateTime where
  year : Nat
  month : Nat
  day : Nat
  hour : Nat
  minute : Nat
  second : Nat
deriving Repr, DecidableEq

/-- Python datetime comparison `a <= b` (lexicographic). -/
def dtLe (a b : PyDateTime) : Bool :=
  if a.year ≠ b.year then a.year < b.year
  else if a.month ≠ b.month then a.month < b.month
  else if a.day ≠ b.day then a.day < b.day
  else if a.hour ≠ b.hour then a.hour < b.hour
  else if a.minute ≠ b.minute then a.minute < b.minute
  else a.second ≤ b.second

/-- One `strptime` format directive. -/
inductive FmtTok where
  | dirY
  | dirm
  | dird
  | dirH
  | dirM
  | dirS
  | litWs
  | lit (c : Char)
deriving DecidableEq, Repr

/-- ASCII digit test. -/
def isDigitC (c : Char) : Bool := '0' ≤ c ∧ c ≤ '9'

/-- Numeric value of an ASCII digit. -/
def digitVal (c : Char) : Nat := c.toNat - '0'.toNat

/-- A TimeRE numeric field: a two-digit match whose value lies in
`[minTwo, maxTwo]`, else a one-digit match with value at least `minOne`. -/
def parseField2or1 (minTwo maxTwo minOne : Nat) : List Char → Option (Nat × List Char)
  | a :: b :: rest =>
    if isDigitC a ∧ isDigitC b ∧ minTwo ≤ 10 * digitVal a + digitVal b
        ∧ 10 * digitVal a + digitVal b ≤ maxTwo then
      some (10 * digitVal a + digitVal b, rest)
    else if isDigitC a ∧ minOne ≤ digitVal a then some (digitVal a, b :: rest)
    else none
  | [a] => if isDigitC a ∧ minOne ≤ digitVal a then some (digitVal a, []) else none
  | [] => none

/-- The `%Y` field: exactly four digits. -/
def parseYear4 : List Char → Option (Nat × List Char)
  | a :: b :: c :: d :: rest =>
    if isDigitC a ∧ isDigitC b ∧ isDigitC c ∧ isDigitC d then
      some (((digitVal a * 10 + digitVal b) * 10 + digitVal c) * 10 + digitVal d, rest)
    else none
  | _ => none

/-- Gregorian leap-year rule. -/
def isLeapYear (y : Nat) : Bool := y % 4 = 0 ∧ (y % 100 ≠ 0 ∨ y % 400 = 0)

/-- Days in a month (`calendar` rule used by the `datetime` constructor). -/
def daysInMonth (y m : Nat) : Nat :=
  if m = 2 then (if isLeapYear y then 29 else 28)
  else if m = 4 ∨ m = 6 ∨ m = 9 ∨ m = 11 then 30
  else 31

/-- Run the directives over the input, threading the partial datetime. -/
def strptimeGo : List FmtTok → List Char → PyDateTime → Option PyDateTime
  | [], [], acc => some acc
  | [], _ :: _, _ => none
  | .dirY :: toks, s, acc =>
    match parseYear4 s with
    | some (v, rest) => strptimeGo toks rest { acc with year := v }
    | none => none
  | .dirm :: toks, s, acc =>
    match parseField2or1 1 12 1 s with
    | some (v, rest) => strptimeGo toks rest { acc with month := v }
    | none => none
  | .dird :: toks, s, acc =>
    match parseField2or1 1 31 1 s with
    | some (v, rest) => strptimeGo toks rest { acc with day := v }
    | none => none
  | .dirH :: toks, s, acc =>
    match parseField2or1 0 23 0 s with
    | some (v, rest) => strptimeGo toks rest { acc with hour := v }
    | none => none
  | .dirM :: toks, s, acc =>
    match parseField2or1 0 59 0 s with
    | some (v, rest) => strptimeGo toks rest { acc with minute := v }
    | none => none
  | .dirS :: toks, s, acc =>
    match parseField2or1 0 59 0 s with
    | some (v, rest) => strptimeGo toks rest { acc with second := v }
    | none => none
  | .litWs :: toks, s, acc =>
    match s with
    | c :: rest =>
      if isPySpace c then strptimeGo toks (rest.dropWhile isPySpace) acc else none
    | [] => none
  | .lit c :: toks, s, acc =>
    match s with
    | c2 :: rest => if c2 = c then strptimeGo toks rest acc else none
    | [] => none

/-- Embedding of `datetime.strptime(s, fmt)` (defaults 1900-01-01; the
constructed date must be valid, and the year positive). -/
def strptimeL (fmt : List FmtTok) (s : List Char) : Option PyDateTime :=
  match strptimeGo fmt s ⟨1900, 1, 1, 0, 0, 0⟩ with
  | some dt =>
    if 1 ≤ dt.year ∧ dt.day ≤ daysInMonth dt.year dt.month then some dt else none
  | none => none

/-- `SCHEDULE_TIME_FORMATS`: `%H:%M`, `%H:%M:%S`, `%Y-%m-%d %H:%M`,
`%Y-%m-%d %H:%M:%S`. -/
def SCHEDULE_TIME_FORMATS : List (List FmtTok) :=
  [[.dirH, .lit ':', .dirM],
   [.dirH, .lit ':', .dirM, .lit ':', .dirS],
   [.dirY, .lit '-', .dirm, .lit '-', .dird, .litWs, .dirH, .lit ':', .dirM],
   [.dirY, .lit '-', .dirm, .lit '-', .dird, .litWs, .dirH, .lit ':', .dirM, .lit ':', .dirS]]

/-- The date-hint formats `%d/%m`, `%d-%m`, `%d.%m`. -/
def scheduleDateHintFormats : List (List FmtTok) :=
  [[.dird, .lit '/', .dirm],
   [.dird, .lit '-', .dirm],
   [.dird, .lit '.', .dirm]]

/-- The source test `"%Y" not in fmt and "%y" not in fmt and "%m" not in
fmt and "%d" not in fmt`, on the directive representation. -/
def fmtHasDateDirective (fmt : List FmtTok) : Bool :=
  fmt.any (fun t => t = .dirY ∨ t = .dirm ∨ t = .dird)

/-- The date-hint loop of `_parse_schedule_timestamp`: first hint format
that parses and whose day survives `replace(year=now.year)` (Feb 29 of a
non-leap year raises `ValueError` and falls through to the next format). -/
def parseDateHintGo (now : PyDateTime) (text : List Char) :
    List (List FmtTok) → Option PyDateTime
  | [] => none
  | f :: fs =>
    match strptimeL f text with
    | some d =>
      if d.day ≤ daysInMonth now.year d.month then some { d with year := now.year }
      else parseDateHintGo now text fs
    | none => parseDateHintGo now text fs

/-- The main format loop of `_parse_schedule_timestamp`. -/
def parseScheduleTimestampGo (now : PyDateTime) (dateObj : Option PyDateTime)
    (text : List Char) : List (List FmtTok) → Option PyDateTime
  | [] => none
  | f :: fs =>
    match strptimeL f text with
    | some parsed =>
      match dateObj with
      | some dobj =>
        some { parsed with year := dobj.year, month := dobj.month, day := dobj.day }
      | none =>
        if ¬ fmtHasDateDirective f then
          some { parsed with year := now.year, month := now.month, day := now.day }
        else some parsed
    | none => parseScheduleTimestampGo now dateObj text fs

/-- Embedding of `_parse_schedule_timestamp` (`now` is `datetime.now()`). -/
def parseScheduleTimestamp (now : PyDateTime) (value : String) (dateHint : String) :
    Option PyDateTime :=
  let text := stripL (toL value)
  if text = [] then none
  else
    let dateObj :=
      if dateHint = "" then none
      else parseDateHintGo now (stripL (toL dateHint)) scheduleDateHintFormats
    parseScheduleTimestampGo now dateObj text SCHEDULE_TIME_FORMATS

/-- A job is dispatched immediately when its schedule time fails to parse
or the parsed target is not after `now`. -/
def jobImmediate (now : PyDateTime) (job : ScheduleJob) : Bool :=
  match parseScheduleTimestamp now job.schedule_time job.schedule_date with
  | none => true
  | some target => dtLe target now

/-- Embedding of `_group_jobs_by_time`. -/
def groupJobsByTime (now : PyDateTime) (jobs : List ScheduleJob) :
    List ScheduleJob × List (PyDateTime × List ScheduleJob) :=
  jobs.foldl
    (fun acc job =>
      match parseScheduleTimestamp now job.schedule_time job.schedule_date with
      | none => (acc.1 ++ [job], acc.2)
      | some target =>
        if dtLe target now then (acc.1 ++ [job], acc.2)
        else (acc.1, updateGroups acc.2 target job))
    ([], [])

/-- Invariant of the `_group_jobs_by_time` loop over the processed jobs:
the immediate list filters the processed jobs, the scheduled map has
distinct future targets, each slot filters the processed jobs by target,
every future-parsed job is covered, every target inhabited. -/
def TimeSpec (now : PyDateTime) (processed : List ScheduleJob)
    (st : List ScheduleJob × List (PyDateTime × List ScheduleJob)) : Prop :=
  st.1 = processed.filter (jobImmediate now)
  ∧ (st.2.map Prod.fst).Nodup
  ∧ (∀ p ∈ st.2, dtLe p.1 now = false
      ∧ p.2 = processed.filter (fun j =>
          decide (parseScheduleTimestamp now j.schedule_time j.schedule_date = some p.1)))
  ∧ (∀ j ∈ processed, ∀ t,
      parseScheduleTimestamp now j.schedule_time j.schedule_date = some t →
      dtLe t now = false → t ∈ st.2.map Prod.fst)
  ∧ (∀ k ∈ st.2.map Prod.fst, ∃ j ∈ processed,
      parseScheduleTimestamp now j.schedule_time j.schedule_date = some k)

/-- One loop iteration of `_group_jobs_by_time` preserves the invariant. -/
theorem groupJobsByTime_step (now : PyDateTime) (processed : List ScheduleJob)
    (st : List ScheduleJob × List (PyDateTime × List ScheduleJob)) (x : ScheduleJob)
    (h : TimeSpec now processed st) :
    TimeSpec now (processed ++ [x])
      (match parseScheduleTimestamp now x.schedule_time x.schedule_date with
       | none => (st.1 ++ [x], st.2)
       | some target =>
         if dtLe target now then (st.1 ++ [x], st.2)
         else (st.1, updateGroups st.2 target x)) := by
  obtain ⟨himm, hnd, hslot, hcov, hsur⟩ := h
  cases hx : parseScheduleTimestamp now x.schedule_time x.schedule_date with
  | none =>
    have hxi : jobImmediate now x = true := by unfold jobImmediate; rw [hx]
    refine ⟨?_, hnd, ?_, ?_, ?_⟩
    · rw [List.filter_append, ← himm]
      simp [List.filter, hxi]
    · intro p hp
      refine ⟨(hslot p hp).1, ?_⟩
      rw [List.filter_append, ← (hslot p hp).2]
      have : decide (parseScheduleTimestamp now x.schedule_time x.schedule_date
          = some p.1) = false := by rw [hx]; simp
      simp [List.filter, this]
    · intro j hj t hjt hlt
      rcases List.mem_append.mp hj with hj0 | hj1
      · exact hcov j hj0 t hjt hlt
      · have : j = x := by simpa using hj1
        subst this
        rw [hx] at hjt
        cases hjt
    · intro k hk
      obtain ⟨j, hj, hjk⟩ := hsur k hk
      exact ⟨j, List.mem_append_left _ hj, hjk⟩
  | some t =>
    by_cases ht : dtLe t now = true
    · have hxi : jobImmediate now x = true := by unfold jobImmediate; rw [hx]; exact ht
      dsimp only
      rw [if_pos ht]
      refine ⟨?_, hnd, ?_, ?_, ?_⟩
      · rw [List.filter_append, ← himm]
        simp [List.filter, hxi]
      · intro p hp
        refine ⟨(hslot p hp).1, ?_⟩
        rw [List.filter_append, ← (hslot p hp).2]
        have : decide (parseScheduleTimestamp now x.schedule_time x.schedule_date
            = some p.1) = false := by
          rw [hx]
          simp only [decide_eq_false_iff_not]
          intro hc
          have hteq : t = p.1 := by simpa using hc
          have hf := (hslot p hp).1
          rw [← hteq] at hf
          rw [hf] at ht
          cases ht
        simp [List.filter, this]
      · intro j hj t2 hjt hlt
        rcases List.mem_append.mp hj with hj0 | hj1
        · exact hcov j hj0 t2 hjt hlt
        · have : j = x := by simpa using hj1
          subst this
          rw [hx] at hjt
          have : t = t2 := by simpa using hjt
          subst this
          rw [ht] at hlt
          cases hlt
      · intro k hk
        obtain ⟨j, hj, hjk⟩ := hsur k hk
        exact ⟨j, List.mem_append_left _ hj, hjk⟩
    · have htf : dtLe t now = false := by
        cases hdt : dtLe t now
        · rfl
        · exact absurd hdt ht
      have hxi : jobImmediate now x = false := by
        unfold jobImmediate; rw [hx]; exact htf
      dsimp only
      rw [if_neg ht]
      have hkeys := updateGroups_keys t x st.2
      refine ⟨?_, ?_, ?_, ?_, ?_⟩
      · rw [List.filter_append, ← himm]
        simp [List.filter, hxi]
      · rw [hkeys]
        by_cases hmem : t ∈ st.2.map Prod.fst
        · rwa [if_pos hmem]
        · rw [if_neg hmem]
          exact List.nodup_append.mpr
            ⟨hnd, List.nodup_singleton _, by simpa [List.disjoint_singleton] using hmem⟩
      · intro p hp
        rcases updateGroups_mem t x st.2 hnd p hp with ⟨hpk, hbody⟩ | ⟨hpk, hpgs⟩
        · rcases hbody with ⟨hfresh, hpl⟩ | ⟨l0, hl0, hpl⟩
          · refine ⟨by rw [hpk]; exact htf, ?_⟩
            have hnone : processed.filter (fun j =>
                decide (parseScheduleTimestamp now j.schedule_time j.schedule_date
                  = some p.1)) = [] := by
              rw [List.filter_eq_nil_iff]
              intro j hj hc
              have hjp : parseScheduleTimestamp now j.schedule_time j.schedule_date
                  = some p.1 := by simpa using hc
              have hple : dtLe p.1 now = false := by rw [hpk]; exact htf
              have hmemk := hcov j hj p.1 hjp hple
              rw [hpk] at hmemk
              exact hfresh hmemk
            rw [List.filter_append, hnone, List.nil_append, hpl]
            have : decide (parseScheduleTimestamp now x.schedule_time x.schedule_date
                = some p.1) = true := by rw [hx, hpk]; simp
            simp [List.filter, this]
          · have hl0eq := (hslot (t, l0) hl0).2
            simp only at hl0eq
            refine ⟨by rw [hpk]; exact htf, ?_⟩
            rw [List.filter_append, hpl, hpk, ← hl0eq]
            have : decide (parseScheduleTimestamp now x.schedule_time x.schedule_date
                = some t) = true := by rw [hx]; simp
            simp [List.filter, this]
        · refine ⟨(hslot p hpgs).1, ?_⟩
          rw [List.filter_append, ← (hslot p hpgs).2]
          have : decide (parseScheduleTimestamp now x.schedule_time x.schedule_date
              = some p.1) = false := by
            rw [hx]
            simp only [decide_eq_false_iff_not]
            intro hc
            have : t = p.1 := by simpa using hc
            exact hpk this.symm
          simp [List.filter, this]
      · intro j hj t2 hjt hlt
        have hsub : st.2.map Prod.fst ⊆ (updateGroups st.2 t x).map Prod.fst := by
          rw [hkeys]
          by_cases hmem : t ∈ st.2.map Prod.fst
          · rw [if_pos hmem]
            exact fun a ha => ha
          · rw [if_neg hmem]; exact fun a ha => List.mem_append_left _ ha
        rcases List.mem_append.mp hj with hj0 | hj1
        · exact hsub (hcov j hj0 t2 hjt hlt)
        · have : j = x := by simpa using hj1
          subst this
          rw [hx] at hjt
          have : t = t2 := by simpa using hjt
          subst this
          rw [hkeys]
          by_cases hmem : t ∈ st.2.map Prod.fst
          · rwa [if_pos hmem]
          · rw [if_neg hmem]
            exact List.mem_append_right _ (by simp)
      · intro k hk
        rw [hkeys] at hk
        by_cases hmem : t ∈ st.2.map Prod.fst
        · rw [if_pos hmem] at hk
          obtain ⟨j, hj, hjk⟩ := hsur k hk
          exact ⟨j, List.mem_append_left _ hj, hjk⟩
        · rw [if_neg hmem] at hk
          rcases List.mem_append.mp hk with hold | hnew
          · obtain ⟨j, hj, hjk⟩ := hsur k hold
            exact ⟨j, List.mem_append_left _ hj, hjk⟩
          · have : k = t := by simpa using hnew
            subst this
            exact ⟨x, List.mem_append_right _ (by simp), hx⟩

/-- The whole loop satisfies the invariant. -/
theorem groupJobsByTime_spec (now : PyDateTime) (jobs : List ScheduleJob) :
    TimeSpec now jobs (groupJobsByTime now jobs) := by
  suffices h : ∀ (ys : List ScheduleJob) (processed : List ScheduleJob)
      (st : List ScheduleJob × List (PyDateTime × List ScheduleJob)),
      TimeSpec now processed st →
      TimeSpec now (processed ++ ys)
        (ys.foldl (fun acc job =>
          match parseScheduleTimestamp now job.schedule_time job.schedule_date with
          | none => (acc.1 ++ [job], acc.2)
          | some target =>
            if dtLe target now then (acc.1 ++ [job], acc.2)
            else (acc.1, updateGroups acc.2 target job)) st) by
    have := h jobs [] ([], []) ⟨by simp, by simp, by simp, by simp, by simp⟩
    simpa [groupJobsByTime] using this
  intro ys
  induction ys with
  | nil =>
    intro processed st h
    simpa using h
  | cons x ys ih =>
    intro processed st h
    have h2 := groupJobsByTime_step now processed st x h
    have h3 := ih (processed ++ [x]) _ h2
    simpa [List.append_assoc] using h3

/-- The main format loop of `_parse_schedule_timestamp` returns `None`
exactly when every format fails to parse the text. -/
theorem parseScheduleTimestampGo_none_iff (now : PyDateTime)
    (dateObj : Option PyDateTime) (text : List Char) :
    ∀ fmts, (parseScheduleTimestampGo now dateObj text fmts = none ↔
      ∀ f ∈ fmts, strptimeL f text = none) := by
  intro fmts
  induction fmts with
  | nil => simp [parseScheduleTimestampGo]
  | cons f fs ih =>
    cases hf : strptimeL f text with
    | some d =>
      have hgo : ∃ v, parseScheduleTimestampGo now dateObj text (f :: fs) = some v := by
        cases dateObj with
        | some dobj =>
          refine ⟨{ d with year := dobj.year, month := dobj.month, day := dobj.day }, ?_⟩
          simp [parseScheduleTimestampGo, hf]
        | none =>
          by_cases hd : fmtHasDateDirective f
          · refine ⟨d, ?_⟩
            simp [parseScheduleTimestampGo, hf, hd]
          · refine ⟨{ d with year := now.year, month := now.month, day := now.day }, ?_⟩
            simp [parseScheduleTimestampGo, hf, hd]
      obtain ⟨v, hv⟩ := hgo
      rw [hv]
      constructor
      · intro h; cases h
      · intro hall
        have := hall f (List.mem_cons_self f fs)
        rw [hf] at this
        cases this
    | none =>
      have hstep : parseScheduleTimestampGo now dateObj text (f :: fs)
          = parseScheduleTimestampGo now dateObj text fs := by
        simp [parseScheduleTimestampGo, hf]
      rw [hstep, ih]
      constructor
      · intro hall f2 hmem
        rcases List.mem_cons.mp hmem with hfe | hm
        · rw [hfe]; exact hf
        · exact hall f2 hm
      · intro hall f2 hm
        exact hall f2 (List.mem_cons_of_mem _ hm)

/-- A job is immediate exactly when its schedule time fails to parse or
parses to a target not after `now`. -/
theorem jobImmediate_iff (now : PyDateTime) (j : ScheduleJob) :
    jobImmediate now j = true ↔
      (parseScheduleTimestamp now j.schedule_time j.schedule_date = none
        ∨ ∃ t, parseScheduleTimestamp now j.schedule_time j.schedule_date = some t
            ∧ dtLe t now = true) := by
  unfold jobImmediate
  cases hp : parseScheduleTimestamp now j.schedule_time j.schedule_date with
  | none => simp
  | some t => simp

/-- C6: `_group_jobs_by_time` partitions the jobs: the immediate list is the
order-preserving sublist of jobs whose schedule time fails to parse under
every format of `SCHEDULE_TIME_FORMATS` (given the date hint) or whose
parsed target is not after `now`; every other job is placed in the
scheduled map under its parsed target; targets are distinct and in the
future, each slot is the order-preserving sublist of jobs with that target,
and every future-parsed job's target is a slot — so immediate list and
scheduled map together contain every input job exactly once. -/
theorem C6_group_jobs_by_time (now : PyDateTime) (jobs : List ScheduleJob) :
    (groupJobsByTime now jobs).1 = jobs.filter (jobImmediate now)
    ∧ (∀ j : ScheduleJob,
        parseScheduleTimestamp now j.schedule_time j.schedule_date = none ↔
        ∀ f ∈ SCHEDULE_TIME_FORMATS, strptimeL f (stripL (toL j.schedule_time)) = none)
    ∧ (∀ j : ScheduleJob, j ∈ (groupJobsByTime now jobs).1 ↔
        (j ∈ jobs ∧ ((∀ f ∈ SCHEDULE_TIME_FORMATS,
              strptimeL f (stripL (toL j.schedule_time)) = none)
          ∨ ∃ t, parseScheduleTimestamp now j.schedule_time j.schedule_date = some t
              ∧ dtLe t now = true)))
    ∧ ((groupJobsByTime now jobs).2.map Prod.fst).Nodup
    ∧ (∀ p ∈ (groupJobsByTime now jobs).2,
        dtLe p.1 now = false
          ∧ p.2 = jobs.filter (fun j =>
              decide (parseScheduleTimestamp now j.schedule_time j.schedule_date
                = some p.1)))
    ∧ (∀ p ∈ (groupJobsByTime now jobs).2, ∀ j,
        j ∈ p.2 ↔ (j ∈ jobs
          ∧ parseScheduleTimestamp now j.schedule_time j.schedule_date = some p.1))
    ∧ (∀ j ∈ jobs, ∀ t,
        parseScheduleTimestamp now j.schedule_time j.schedule_date = some t →
        dtLe t now = false →
        t ∈ (groupJobsByTime now jobs).2.map Prod.fst) := by
  obtain ⟨himm, hnd, hslot, hcov, hsur⟩ := groupJobsByTime_spec now jobs
  have hforms : ∀ j : ScheduleJob,
      parseScheduleTimestamp now j.schedule_time j.schedule_date = none ↔
        ∀ f ∈ SCHEDULE_TIME_FORMATS, strptimeL f (stripL (toL j.schedule_time)) = none := by
    intro j
    by_cases htext : stripL (toL j.schedule_time) = []
    · have hforms0 : ∀ f ∈ SCHEDULE_TIME_FORMATS,
          strptimeL f ([] : List Char) = none := by decide
      constructor
      · intro _ f hf
        rw [htext]
        exact hforms0 f hf
      · intro _
        simp [parseScheduleTimestamp, htext]
    · have hne : parseScheduleTimestamp now j.schedule_time j.schedule_date
          = parseScheduleTimestampGo now
              (if j.schedule_date = "" then none
               else parseDateHintGo now (stripL (toL j.schedule_date))
                 scheduleDateHintFormats)
              (stripL (toL j.schedule_time)) SCHEDULE_TIME_FORMATS := by
        simp [parseScheduleTimestamp, htext]
      rw [hne]
      exact parseScheduleTimestampGo_none_iff now _ _ SCHEDULE_TIME_FORMATS
  refine ⟨himm, hforms, ?_, hnd, hslot, ?_, hcov⟩
  · intro j
    rw [himm, List.mem_filter]
    constructor
    · rintro ⟨hjm, hji⟩
      refine ⟨hjm, ?_⟩
      rcases (jobImmediate_iff now j).mp hji with hnone | hex
      · exact .inl ((hforms j).mp hnone)
      · exact .inr hex
    · rintro ⟨hjm, hcase⟩
      refine ⟨hjm, ?_⟩
      apply (jobImmediate_iff now j).mpr
      rcases hcase with hall | hex
      · exact .inl ((hforms j).mpr hall)
      · exact .inr hex
  · intro p hp j
    rw [(hslot p hp).2, List.mem_filter]
    simp

/-- Now-instant used by the C6 witness. -/
def c6Now : PyDateTime := ⟨2026, 10, 12, 12, 0, 0⟩

/-- Witness job scheduled for later the same day. -/
def c6FutureJob : ScheduleJob := ⟨"Medium", "q", "medium", "t2", "", "", "23:15", "", "", 3⟩

/-- Witness for C6: the single future job lands in the slot of its parsed
target, by instantiating the theorem's slot-membership conjunct. -/
theorem C6_group_jobs_by_time_witness :
    c6FutureJob ∈ ((⟨2026, 10, 12, 23, 15, 0⟩ : PyDateTime), [c6FutureJob]).2
      ↔ (c6FutureJob ∈ [c6FutureJob]
          ∧ parseScheduleTimestamp c6Now c6FutureJob.schedule_time
              c6FutureJob.schedule_date = some ⟨2026, 10, 12, 23, 15, 0⟩) :=
  (C6_group_jobs_by_time c6Now [c6FutureJob]).2.2.2.2.2.1
    ((⟨2026, 10, 12, 23, 15, 0⟩ : PyDateTime), [c6FutureJob]) (by decide) c6FutureJob

/-! ### The `_sanitize_medium_html` pipeline (src/medium_selenium.py 584-741)

The regex substitutions are modelled as dedicated scanning functions with
the same match semantics as the patterns (`SCRIPT_TAG_RE`, `ON_ATTR_RE`,
`WRAPPER_TAG_RE`, `NBSP_RE`, `NAMED_ENTITY_RE`); `html.escape` and a
partial `html.entities.name2codepoint` table model the stdlib helpers. -/

/-- Model of `html.escape`: `&`, `<`, `>` always; `"` and `'` when
`quote=True` (CPython replaces in this order, which equals the per-char
expansion). -/
def htmlEscape (quote : Bool) (s : List Char) : List Char :=
  s.flatMap (fun c =>
    if c = '&' then toL "&amp;"
    else if c = '<' then toL "&lt;"
    else if c = '>' then toL "&gt;"
    else if quote ∧ c = '"' then toL "&quot;"
    else if quote ∧ c = '\'' then toL "&#x27;"
    else [c])

/-- Partial model of `html.entities.name2codepoint` (HTML 4.01 entity
names); names outside this table are treated as unknown and the entity
reference is kept verbatim, exactly as for an unknown name in Python. -/
def name2codepoint (name : List Char) : Option Nat :=
  if name = toL "amp" then some 38
  else if name = toL "lt" then some 60
  else if name = toL "gt" then some 62
  else if name = toL "quot" then some 34
  else if name = toL "apos" then some 39
  else if name = toL "nbsp" then some 160
  else if name = toL "copy" then some 169
  else if name = toL "reg" then some 174
  else if name = toL "trade" then some 8482
  else if name = toL "hellip" then some 8230
  else if name = toL "mdash" then some 8212
  else if name = toL "ndash" then some 8211
  else if name = toL "lsquo" then some 8216
  else if name = toL "rsquo" then some 8217
  else if name = toL "ldquo" then some 8220
  else if name = toL "rdquo" then some 8221
  else if name = toL "eacute" then some 233
  else if name = toL "egrave" then some 232
  else if name = toL "agrave" then some 224
  else if name = toL "ccedil" then some 231
  else if name = toL "ouml" then some 246
  else if name = toL "uuml" then some 252
  else if name = toL "auml" then some 228
  else if name = toL "deg" then some 176
  else if name = toL "middot" then some 183
  else if name = toL "bull" then some 8226
  else if name = toL "sect" then some 167
  else if name = toL "laquo" then some 171
  else if name = toL "raquo" then some 187
  else if name = toL "times" then some 215
  else if name = toL "divide" then some 247
  else none

/-- Match `<\s*(script|style|iframe)[^>]*>` at the head (case-insensitive,
alternation order as in `SCRIPT_TAG_RE`); returns the lowered captured name
and the remainder after `>`. -/
def matchScriptOpen (s : List Char) : Option (List Char × List Char) :=
  match s with
  | '<' :: rest =>
    let rest1 := rest.dropWhile isPySpace
    let tryTail := fun (n : Nat) =>
      let r2 := rest1.drop n
      let body := r2.takeWhile (fun c => c ≠ '>')
      match r2.drop body.length with
      | '>' :: r3 => some r3
      | _ => none
    if leadsWith (toL "script") (lowerL rest1) then
      (tryTail 6).map (fun r => (toL "script", r))
    else if leadsWith (toL "style") (lowerL rest1) then
      (tryTail 5).map (fun r => (toL "style", r))
    else if leadsWith (toL "iframe") (lowerL rest1) then
      (tryTail 6).map (fun r => (toL "iframe", r))
    else none
  | _ => none

/-- Match `<\s*/\s*NAME\s*>` at the head (the backreference is matched
case-insensitively); returns the remainder. -/
def matchScriptClose (name : List Char) (s : List Char) : Option (List Char) :=
  match s with
  | '<' :: r1 =>
    match r1.dropWhile isPySpace with
    | '/' :: r3 =>
      let r4 := r3.dropWhile isPySpace
      if leadsWith name (lowerL r4) then
        match (r4.drop name.length).dropWhile isPySpace with
        | '>' :: r7 => some r7
        | _ => none
      else none
    | _ => none
  | _ => none

/-- Leftmost close-tag search (the `.*?` of `SCRIPT_TAG_RE`). -/
def findScriptClose (name : List Char) : Nat → List Char → Option (List Char)
  | 0, _ => none
  | fuel + 1, s =>
    match matchScriptClose name s with
    | some rest => some rest
    | none =>
      match s with
      | [] => none
      | _ :: cs => findScriptClose name fuel cs

/-- The `SCRIPT_TAG_RE.sub("", ...)` scan. -/
def scriptTagSubGo : Nat → List Char → List Char
  | 0, s => s
  | fuel + 1, s =>
    match s with
    | [] => []
    | c :: cs =>
      match matchScriptOpen s with
      | some (name, afterOpen) =>
        match findScriptClose name (afterOpen.length + 1) afterOpen with
        | some rest => scriptTagSubGo fuel rest
        | none => c :: scriptTagSubGo fuel cs
      | none => c :: scriptTagSubGo fuel cs

/-- Remove `<script>`, `<style>` and `<iframe>` elements. -/
def scriptTagSub (s : List Char) : List Char := scriptTagSubGo (s.length + 1) s

/-- Match `\son[a-z]+\s*=\s*(['"]).*?\1` at the head (case-insensitive,
`.` does not cross newlines); returns the remainder after the match. -/
def matchOnAttr (s : List Char) : Option (List Char) :=
  match s with
  | c :: r1 =>
    if isPySpace c ∧ leadsWith (toL "on") (lowerL r1) then
      let r2 := r1.drop 2
      let letters := r2.takeWhile isAsciiAlpha
      if letters = [] then none
      else
        let r4 := (r2.drop letters.length).dropWhile isPySpace
        match r4 with
        | '=' :: r5 =>
          match r5.dropWhile isPySpace with
          | q :: r7 =>
            if q = '\'' ∨ q = '"' then findQuoteEnd q (r7.length + 1) r7 else none
          | [] => none
        | _ => none
    else none
  | [] => none
where
  findQuoteEnd (q : Char) : Nat → List Char → Option (List Char)
    | 0, _ => none
    | _ + 1, [] => none
    | fuel + 1, c :: cs =>
      if c = q then some cs
      else if c = '\n' then none
      else findQuoteEnd q fuel cs

/-- The `ON_ATTR_RE.sub("", ...)` scan. -/
def onAttrSubGo : Nat → List Char → List Char
  | 0, s => s
  | fuel + 1, s =>
    match s with
    | [] => []
    | c :: cs =>
      match matchOnAttr s with
      | some rest => onAttrSubGo fuel rest
      | none => c :: onAttrSubGo fuel cs

/-- Remove inline `on*` event-handler attributes. -/
def onAttrSub (s : List Char) : List Char := onAttrSubGo (s.length + 1) s

/-- The wrapper-tag alternation of `WRAPPER_TAG_RE`, in pattern order;
returns the matched name length. -/
def wrapperNameLen (s : List Char) : Option Nat :=
  let l := lowerL s
  if leadsWith (toL "html") l then some 4
  else if leadsWith (toL "head") l then some 4
  else if leadsWith (toL "body") l then some 4
  else if leadsWith (toL "article") l then some 7
  else if leadsWith (toL "main") l then some 4
  else if leadsWith (toL "section") l then some 7
  else if leadsWith (toL "nav") l then some 3
  else if leadsWith (toL "aside") l then some 5
  else none

/-- Match `</?\s*(html|head|body|article|main|section|nav|aside)[^>]*>` at
the head; returns the remainder. -/
def matchWrapperTag (s : List Char) : Option (List Char) :=
  match s with
  | '<' :: r1 =>
    let r2 := match r1 with
      | '/' :: rr => rr
      | _ => r1
    let r3 := r2.dropWhile isPySpace
    match wrapperNameLen r3 with
    | some n =>
      let r4 := r3.drop n
      let body := r4.takeWhile (fun c => c ≠ '>')
      match r4.drop body.length with
      | '>' :: r5 => some r5
      | _ => none
    | none => none
  | _ => none

/-- The `WRAPPER_TAG_RE.sub("", ...)` scan. -/
def wrapperTagSubGo : Nat → List Char → List Char
  | 0, s => s
  | fuel + 1, s =>
    match s with
    | [] => []
    | c :: cs =>
      match matchWrapperTag s with
      | some rest => wrapperTagSubGo fuel rest
      | none => c :: wrapperTagSubGo fuel cs

/-- Strip document-wrapper open/close tags. -/
def wrapperTagSub (s : List Char) : List Char := wrapperTagSubGo (s.length + 1) s

/-- Model of Python `str.replace` (left-to-right, non-overlapping). -/
def replaceAllGo (pat rep : List Char) : Nat → List Char → List Char
  | 0, s => s
  | fuel + 1, s =>
    match s with
    | [] => []
    | c :: cs =>
      if pat ≠ [] ∧ leadsWith pat s then rep ++ replaceAllGo pat rep fuel (s.drop pat.length)
      else c :: replaceAllGo pat rep fuel cs

/-- String replace wrapper. -/
def replaceAllL (pat rep s : List Char) : List Char := replaceAllGo pat rep (s.length + 1) s

/-- The `NBSP_RE.sub("&#160;", ...)` scan (`&nbsp;` case-insensitive). -/
def nbspSubGo : Nat → List Char → List Char
  | 0, s => s
  | fuel + 1, s =>
    match s with
    | [] => []
    | c :: cs =>
      if leadsWith (toL "&nbsp;") (lowerL s) then
        toL "&#160;" ++ nbspSubGo fuel (s.drop 6)
      else c :: nbspSubGo fuel cs

/-- Replace `&nbsp;` by `&#160;`. -/
def nbspSub (s : List Char) : List Char := nbspSubGo (s.length + 1) s

/-- Match the entity-name body `[a-zA-Z][a-zA-Z0-9]+;` right after `&`;
returns name and remainder after `;`. -/
def matchEntityName (s : List Char) : Option (List Char × List Char) :=
  match s with
  | c :: _ =>
    if isAsciiAlpha c then
      let name := s.takeWhile (fun ch => isAsciiAlpha ch ∨ isDigitC ch)
      if 2 ≤ name.length then
        match s.drop name.length with
        | ';' :: rest => some (name, rest)
        | _ => none
      else none
    else none
  | [] => none

/-- The `_replace_named_entity` callback of `_sanitize_medium_html`:
keep `lt/gt/amp/quot/apos` (case-insensitively), turn other known names
into decimal character references, keep unknown names. -/
def replaceNamedEntity (name : List Char) : List Char :=
  let lower := lowerL name
  if lower = toL "lt" ∨ lower = toL "gt" ∨ lower = toL "amp"
      ∨ lower = toL "quot" ∨ lower = toL "apos" then
    '&' :: (name ++ [';'])
  else
    match name2codepoint name with
    | some cp => toL "&#" ++ (Nat.toDigits 10 cp ++ [';'])
    | none => '&' :: (name ++ [';'])

/-- The `NAMED_ENTITY_RE.sub(_replace_named_entity, ...)` scan. -/
def namedEntitySubGo : Nat → List Char → List Char
  | 0, s => s
  | fuel + 1, s =>
    match s with
    | [] => []
    | '&' :: cs =>
      match matchEntityName cs with
      | some (name, rest) => replaceNamedEntity name ++ namedEntitySubGo fuel rest
      | none => '&' :: namedEntitySubGo fuel cs
    | c :: cs => c :: namedEntitySubGo fuel cs

/-- Normalize named entities to numeric references. -/
def namedEntitySub (s : List Char) : List Char := namedEntitySubGo (s.length + 1) s

/-! ### `html.parser.HTMLParser` events and the `_MediumHTMLFilter`
(src/medium_selenium.py 640-691) -/

/-- Parser events delivered to `_MediumHTMLFilter` (with
`convert_charrefs=False`); events the filter does not override (comments,
declarations) are dropped by the tokenizer model. -/
inductive HtmlEvent where
  | startTag (tag : List Char) (attrs : List (List Char × Option (List Char)))
  | startEndTag (tag : List Char) (attrs : List (List Char × Option (List Char)))
  | endTag (tag : List Char)
  | dataRun (text : List Char)
  | entityRef (name : List Char)
  | charRef (name : List Char)
deriving Repr, DecidableEq

/-- `ALLOWED_TAGS` (src/medium_selenium.py 594-622): `none` models the
Python `None` entry for `br`; `some []` an empty attribute set. -/
def ALLOWED_TAGS : List (List Char × Option (List (List Char))) :=
  [(toL "p", some []), (toL "strong", some []), (toL "em", some []),
   (toL "b", some []), (toL "i", some []), (toL "u", some []),
   (toL "a", some [toL "href", toL "title"]),
   (toL "blockquote", some []), (toL "pre", some []), (toL "code", some []),
   (toL "ul", some []), (toL "ol", some []), (toL "li", some []),
   (toL "br", none),
   (toL "img", some [toL "src", toL "alt", toL "title"]),
   (toL "h1", some []), (toL "h2", some []), (toL "h3", some []),
   (toL "h4", some []), (toL "h5", some []), (toL "h6", some []),
   (toL "span", some []),
   (toL "figure", some [toL "class", toL "data-image-id", toL "data-width",
     toL "data-height", toL "data-delayed-src", toL "data-action", toL "role",
     toL "style", toL "tabindex"]),
   (toL "figcaption", some [toL "class", toL "contenteditable",
     toL "data-default-value", toL "style"]),
   (toL "section", some [toL "class", toL "name"]),
   (toL "div", some [toL "class", toL "style", toL "data-action-scope",
     toL "data-used", toL "id", toL "role", toL "tabindex"]),
   (toL "hr", some [])]

/-- `SELF_CLOSING_TAGS`. -/
def SELF_CLOSING_TAGS : List (List Char) := [toL "br", toL "img", toL "hr"]

/-- `URL_ATTRS`. -/
def URL_ATTRS : List (List Char) := [toL "href", toL "src"]

/-- `ALLOWED_SCHEMES`. -/
def ALLOWED_SCHEMES : List (List Char) :=
  [toL "http://", toL "https://", toL "mailto:", toL "tel:"]

/-- Association lookup on character-list keys. -/
def assocLookup {β : Type} : List (List Char × β) → List Char → Option β
  | [], _ => none
  | (k, v) :: rest, key => if k = key then some v else assocLookup rest key

/-- The Python `attr_value.lower().startswith(ALLOWED_SCHEMES)` check. -/
def startsWithScheme (v : List Char) : Bool :=
  ALLOWED_SCHEMES.any (fun sch => leadsWith sch (lowerL v))

/-- One entry of `self.parts` in `_MediumHTMLFilter`. -/
inductive MPart where
  | dataPart (text : List Char)
  | entityPart (name : List Char)
  | charrefPart (name : List Char)
  | startPart (tag : List Char) (attrs : List (List Char × List Char)) (selfClosing : Bool)
  | endPart (tag : List Char)
deriving Repr, DecidableEq

/-- The per-attribute body of `_append_start`'s loop: skip `None` values,
lowercase the name, keep only allowed names, strip the value, and skip
`href`/`src` values that are nonempty and lack an allowed scheme. -/
def filterAttr (allowed : List (List Char)) (av : List Char × Option (List Char)) :
    Option (List Char × List Char) :=
  match av.2 with
  | none => none
  | some v =>
    let an := lowerL av.1
    if ¬ (an ∈ allowed) then none
    else
      let v := stripL v
      if an ∈ URL_ATTRS ∧ v ≠ [] ∧ ¬ startsWithScheme v then none
      else some (an, v)

/-- `_MediumHTMLFilter._append_start`: drop unknown tags, keep only allowed
attributes (none at all when the allowed set is `None` or empty). -/
def appendStart (tag : List Char) (attrs : List (List Char × Option (List Char)))
    (selfClosing : Bool) : Option MPart :=
  let tagL := lowerL tag
  match assocLookup ALLOWED_TAGS tagL with
  | none => none
  | some allowedAttrs =>
    let attrParts :=
      match allowedAttrs with
      | none => []
      | some [] => []
      | some allowed => attrs.filterMap (filterAttr allowed)
    some (.startPart tagL attrParts (tagL ∈ SELF_CLOSING_TAGS ∨ selfClosing))

/-- The filter's event handlers, accumulating `self.parts`. -/
def mediumFilterParts (events : List HtmlEvent) : List MPart :=
  events.foldl
    (fun parts e =>
      match e with
      | .startTag tag attrs =>
        match appendStart tag attrs false with
        | some part => parts ++ [part]
        | none => parts
      | .startEndTag tag attrs =>
        match appendStart tag attrs true with
        | some part => parts ++ [part]
        | none => parts
      | .endTag tag =>
        let tagL := lowerL tag
        if tagL ∈ ALLOWED_TAGS.map Prod.fst ∧ ¬ (tagL ∈ SELF_CLOSING_TAGS) then
          parts ++ [.endPart tagL]
        else parts
      | .dataRun text => if text ≠ [] then parts ++ [.dataPart text] else parts
      | .entityRef name => parts ++ [.entityPart name]
      | .charRef name => parts ++ [.charrefPart name])
    []

/-- Render one part to the string appended in the source. -/
def renderPart : MPart → List Char
  | .dataPart text => htmlEscape false text
  | .entityPart name => '&' :: (name ++ [';'])
  | .charrefPart name => toL "&#" ++ (name ++ [';'])
  | .startPart tag attrs selfClosing =>
    let attrStr :=
      if attrs ≠ [] then
        ' ' :: List.intercalate [' ']
          (attrs.map (fun av => av.1 ++ toL "=\"" ++ htmlEscape true av.2 ++ ['"']))
      else []
    '<' :: (tag ++ attrStr ++ (if selfClosing then toL "/>" else toL ">"))
  | .endPart tag => toL "</" ++ (tag ++ ['>'])

/-- `get_html`: the concatenation of the parts. -/
def renderParts (parts : List MPart) : List Char := (parts.map renderPart).flatten

/-! ### Tokenizer model of `HTMLParser.feed` (stdlib collaborator)

A model of the stdlib tokenizer sufficient for the markup this pipeline
produces and consumes: start/end tags with quoted or unquoted attributes,
self-closing slashes, entity and numeric character references terminated by
`;`, comments/declarations skipped, all other text as data runs. -/

/-- Parse the attribute area of a start tag; returns attributes, the
self-closing flag and the remainder after `>`. -/
def parseAttrsGo : Nat → List Char →
    Option (List (List Char × Option (List Char)) × Bool × List Char)
  | 0, _ => none
  | fuel + 1, s =>
    let s1 := s.dropWhile isPySpace
    match s1 with
    | '>' :: r => some ([], false, r)
    | '/' :: '>' :: r => some ([], true, r)
    | [] => none
    | _ =>
      let an := s1.takeWhile (fun c =>
        ¬ (isPySpace c ∨ c = '=' ∨ c = '/' ∨ c = '>'))
      if an = [] then none
      else
        let r2 := (s1.drop an.length).dropWhile isPySpace
        match r2 with
        | '=' :: r3 =>
          let r4 := r3.dropWhile isPySpace
          match r4 with
          | '"' :: r5 =>
            let v := r5.takeWhile (fun c => c ≠ '"')
            match r5.drop v.length with
            | '"' :: r6 =>
              match parseAttrsGo fuel r6 with
              | some (attrs, sc, rest) => some ((lowerL an, some v) :: attrs, sc, rest)
              | none => none
            | _ => none
          | '\'' :: r5 =>
            let v := r5.takeWhile (fun c => c ≠ '\'')
            match r5.drop v.length with
            | '\'' :: r6 =>
              match parseAttrsGo fuel r6 with
              | some (attrs, sc, rest) => some ((lowerL an, some v) :: attrs, sc, rest)
              | none => none
            | _ => none
          | _ =>
            let v := r4.takeWhile (fun c => ¬ (isPySpace c ∨ c = '>'))
            if v = [] then none
            else
              match parseAttrsGo fuel (r4.drop v.length) with
              | some (attrs, sc, rest) => some ((lowerL an, some v) :: attrs, sc, rest)
              | none => none
        | _ =>
          match parseAttrsGo fuel r2 with
          | some (attrs, sc, rest) => some ((lowerL an, none) :: attrs, sc, rest)
          | none => none

/-- Parse a start tag after `<` (head is a letter). -/
def parseStartTag (s : List Char) :
    Option (List Char × List (List Char × Option (List Char)) × Bool × List Char) :=
  let name := s.takeWhile (fun c => ¬ (isPySpace c ∨ c = '/' ∨ c = '>'))
  match parseAttrsGo (s.length + 1) (s.drop name.length) with
  | some (attrs, sc, rest) => some (lowerL name, attrs, sc, rest)
  | none => none

/-- The tokenizer loop. -/
def tokenizeHtmlGo : Nat → List Char → List HtmlEvent
  | 0, _ => []
  | fuel + 1, s =>
    match s with
    | [] => []
    | '<' :: rest =>
      match rest with
      | '/' :: r2 =>
        let name := r2.takeWhile (fun c => ¬ (isPySpace c ∨ c = '>'))
        let r3 := (r2.drop name.length).dropWhile (fun c => c ≠ '>')
        (match r3 with
         | '>' :: r4 => .endTag (lowerL name) :: tokenizeHtmlGo fuel r4
         | _ => [])
      | '!' :: _ =>
        let r3 := rest.dropWhile (fun c => c ≠ '>')
        (match r3 with
         | '>' :: r4 => tokenizeHtmlGo fuel r4
         | _ => [])
      | c2 :: _ =>
        if isAsciiAlpha c2 then
          match parseStartTag rest with
          | some (tag, attrs, sc, r2) =>
            (if sc then HtmlEvent.startEndTag tag attrs else HtmlEvent.startTag tag attrs)
              :: tokenizeHtmlGo fuel r2
          | none => .dataRun ['<'] :: tokenizeHtmlGo fuel rest
        else .dataRun ['<'] :: tokenizeHtmlGo fuel rest
      | [] => [.dataRun ['<']]
    | '&' :: rest =>
      match rest with
      | '#' :: r2 =>
        let digits := r2.takeWhile isDigitC
        (match r2.drop digits.length with
         | ';' :: r3 =>
           if digits ≠ [] then .charRef digits :: tokenizeHtmlGo fuel r3
           else .dataRun ['&'] :: tokenizeHtmlGo fuel rest
         | _ => .dataRun ['&'] :: tokenizeHtmlGo fuel rest)
      | _ =>
        match matchEntityName rest with
        | some (name, r2) => .entityRef name :: tokenizeHtmlGo fuel r2
        | none => .dataRun ['&'] :: tokenizeHtmlGo fuel rest
    | _ =>
      let run := s.takeWhile (fun c => ¬ (c = '<' ∨ c = '&'))
      .dataRun run :: tokenizeHtmlGo fuel (s.drop run.length)

/-- Tokenize a markup string into parser events. -/
def tokenizeHtml (s : List Char) : List HtmlEvent := tokenizeHtmlGo (s.length + 1) s

/-- The pre-filter stage of `_sanitize_medium_html`: regex substitutions,
`b`/`i`/`u` rewriting, entity normalization. -/
def sanitizePreClean (preserveMediumMarkup : Bool) (raw : List Char) : List Char :=
  let cleaned := scriptTagSub raw
  let cleaned := onAttrSub cleaned
  let cleaned := if ¬ preserveMediumMarkup then wrapperTagSub cleaned else cleaned
  let cleaned := replaceAllL (toL "<b>") (toL "<strong>") cleaned
  let cleaned := replaceAllL (toL "</b>") (toL "</strong>") cleaned
  let cleaned := replaceAllL (toL "<i>") (toL "<em>") cleaned
  let cleaned := replaceAllL (toL "</i>") (toL "</em>") cleaned
  let cleaned := replaceAllL (toL "<u>")
    (toL "<span style=\"text-decoration:underline\">") cleaned
  let cleaned := replaceAllL (toL "</u>") (toL "</span>") cleaned
  let cleaned := nbspSub cleaned
  namedEntitySub cleaned

/-- Embedding of `_sanitize_medium_html`. -/
def sanitizeMediumHtml (raw : List Char) (preserveMediumMarkup : Bool := false) :
    List Char :=
  let cleaned := sanitizePreClean preserveMediumMarkup raw
  if preserveMediumMarkup then stripL cleaned
  else stripL (renderParts (mediumFilterParts (tokenizeHtml cleaned)))

/-! #### Theorems for C9 -/

/-- Well-formed tokenizer events: entity and character reference names
contain no `<` (the stdlib tokenizer only produces alphanumeric names). -/
def wfEvent : HtmlEvent → Prop
  | .entityRef name => '<' ∉ name
  | .charRef name => '<' ∉ name
  | _ => True

/-- The allowed attribute names of a tag (empty for unknown tags and for
tags whose entry is `None` or the empty set). -/
def allowedAttrsOf (tag : List Char) : List (List Char) :=
  match assocLookup ALLOWED_TAGS tag with
  | some (some l) => l
  | _ => []

/-- Structural safety of one emitted part: tags on the whitelist, attribute
names in the tag's allowed set and not `on*`-handlers, nonempty `href`/`src`
values carrying an allowed scheme (case-insensitively). -/
def partSafe : MPart → Prop
  | .dataPart _ => True
  | .entityPart _ => True
  | .charrefPart _ => True
  | .startPart tag attrs _ =>
    tag ∈ ALLOWED_TAGS.map Prod.fst
      ∧ ∀ av ∈ attrs, av.1 ∈ allowedAttrsOf tag
          ∧ ¬ (leadsWith (toL "on") av.1 = true)
          ∧ (av.1 ∈ URL_ATTRS → av.2 ≠ [] → startsWithScheme av.2 = true)
  | .endPart tag => tag ∈ ALLOWED_TAGS.map Prod.fst

/-- Non-tag parts render without any `<`: every `<` of the output opens a
whitelisted tag. -/
def partNoStrayLt : MPart → Prop
  | .startPart _ _ _ => True
  | .endPart _ => True
  | p => '<' ∉ renderPart p

/-- Escaped character data contains no `<`. -/
theorem htmlEscape_no_lt (s : List Char) : '<' ∉ htmlEscape false s := by
  intro h
  rw [htmlEscape, List.mem_flatMap] at h
  obtain ⟨c, _, hc⟩ := h
  by_cases h1 : c = '&'
  · rw [if_pos h1] at hc
    exact absurd hc (by decide)
  · rw [if_neg h1] at hc
    by_cases h2 : c = '<'
    · rw [if_pos h2] at hc
      exact absurd hc (by decide)
    · rw [if_neg h2] at hc
      by_cases h3 : c = '>'
      · rw [if_pos h3] at hc
        exact absurd hc (by decide)
      · rw [if_neg h3] at hc
        have h4 : '<' = c := by simpa using hc
        exact h2 h4.symm

/-- A successful association lookup produces a list entry. -/
theorem assocLookup_mem {β : Type} :
    ∀ (l : List (List Char × β)) (key : List Char) (v : β),
      assocLookup l key = some v → (key, v) ∈ l := by
  intro l
  induction l with
  | nil => intro key v h; cases h
  | cons e rest ih =>
    intro key v h
    obtain ⟨k0, v0⟩ := e
    rw [assocLookup] at h
    by_cases hk : k0 = key
    · rw [if_pos hk] at h
      cases h
      exact hk ▸ List.mem_cons_self _ _
    · rw [if_neg hk] at h
      exact List.mem_cons_of_mem _ (ih key v h)

/-- Every attribute surviving `filterAttr` has an allowed name and a
scheme-checked URL value. -/
theorem filterAttr_sound (allowed : List (List Char))
    (av : List Char × Option (List Char)) (out : List Char × List Char)
    (h : filterAttr allowed av = some out) :
    out.1 ∈ allowed ∧ (out.1 ∈ URL_ATTRS → out.2 ≠ [] → startsWithScheme out.2 = true) := by
  rw [filterAttr] at h
  cases hv : av.2 with
  | none => rw [hv] at h; cases h
  | some v =>
    rw [hv] at h
    dsimp only at h
    by_cases hmem : ¬ (lowerL av.1 ∈ allowed)
    · rw [if_pos hmem] at h; cases h
    · rw [if_neg hmem] at h
      push_neg at hmem
      by_cases hurl : lowerL av.1 ∈ URL_ATTRS ∧ stripL v ≠ []
          ∧ ¬ startsWithScheme (stripL v) = true
      · rw [if_pos hurl] at h; cases h
      · rw [if_neg hurl] at h
        cases h
        refine ⟨hmem, ?_⟩
        intro hu hnonempty
        by_contra hns
        exact hurl ⟨hu, hnonempty, by simpa using hns⟩

/-- A part produced by `appendStart` is structurally safe. -/
theorem appendStart_safe (tag : List Char)
    (attrs : List (List Char × Option (List Char))) (sc : Bool) (part : MPart)
    (h : appendStart tag attrs sc = some part) : partSafe part := by
  have hon : ∀ t ∈ ALLOWED_TAGS.map Prod.fst, ∀ an ∈ allowedAttrsOf t,
      ¬ (leadsWith (toL "on") an = true) := by decide
  rw [appendStart] at h
  cases hl : assocLookup ALLOWED_TAGS (lowerL tag) with
  | none => rw [hl] at h; cases h
  | some allowedAttrs =>
    rw [hl] at h
    dsimp only at h
    have htagmem : lowerL tag ∈ ALLOWED_TAGS.map Prod.fst :=
      List.mem_map_of_mem Prod.fst (assocLookup_mem ALLOWED_TAGS (lowerL tag) _ hl)
    cases allowedAttrs with
    | none =>
      cases h
      exact ⟨htagmem, by intro av hav; cases hav⟩
    | some allowed =>
      cases allowed with
      | nil =>
        cases h
        exact ⟨htagmem, by intro av hav; cases hav⟩
      | cons a0 arest =>
        cases h
        refine ⟨htagmem, ?_⟩
        intro av hav
        obtain ⟨src, _, hsrc⟩ := List.mem_filterMap.mp hav
        have hsound := filterAttr_sound (a0 :: arest) src av hsrc
        have hattrsOf : allowedAttrsOf (lowerL tag) = a0 :: arest := by
          rw [allowedAttrsOf, hl]
        refine ⟨hattrsOf ▸ hsound.1, ?_, hsound.2⟩
        exact hon (lowerL tag) htagmem av.1 (hattrsOf ▸ hsound.1)

/-- C9 (amended): the default-mode sanitizer output is built exclusively
from escaped text, entity or numeric references (which render without `<`)
and whitelisted tags — `script`, `style`, `iframe` are not whitelisted, no
allowed attribute name is an `on*` handler, attribute names outside a tag's
allowed set are dropped, and every *nonempty* `href`/`src` value begins,
case-insensitively, with `http://`, `https://`, `mailto:` or `tel:` (empty
values pass through, and the scheme check ignores the value's case). -/
theorem C9_sanitize_whitelist :
    (¬ toL "script" ∈ ALLOWED_TAGS.map Prod.fst
      ∧ ¬ toL "style" ∈ ALLOWED_TAGS.map Prod.fst
      ∧ ¬ toL "iframe" ∈ ALLOWED_TAGS.map Prod.fst)
    ∧ (∀ raw, sanitizeMediumHtml raw false
        = stripL (renderParts (mediumFilterParts
            (tokenizeHtml (sanitizePreClean false raw)))))
    ∧ (∀ events : List HtmlEvent, (∀ e ∈ events, wfEvent e) →
        ∀ part ∈ mediumFilterParts events, partSafe part ∧ partNoStrayLt part) := by
  refine ⟨by decide, fun raw => rfl, ?_⟩
  suffices h : ∀ (events : List HtmlEvent) (acc : List MPart),
      (∀ p ∈ acc, partSafe p ∧ partNoStrayLt p) →
      (∀ e ∈ events, wfEvent e) →
      ∀ part ∈ events.foldl
        (fun parts e =>
          match e with
          | .startTag tag attrs =>
            match appendStart tag attrs false with
            | some part => parts ++ [part]
            | none => parts
          | .startEndTag tag attrs =>
            match appendStart tag attrs true with
            | some part => parts ++ [part]
            | none => parts
          | .endTag tag =>
            let tagL := lowerL tag
            if tagL ∈ ALLOWED_TAGS.map Prod.fst ∧ ¬ (tagL ∈ SELF_CLOSING_TAGS) then
              parts ++ [.endPart tagL]
            else parts
          | .dataRun text => if text ≠ [] then parts ++ [.dataPart text] else parts
          | .entityRef name => parts ++ [.entityPart name]
          | .charRef name => parts ++ [.charrefPart name]) acc,
        partSafe part ∧ partNoStrayLt part by
    intro events hwf part hp
    exact h events [] (by intro p hp0; cases hp0) hwf part hp
  intro events
  induction events with
  | nil =>
    intro acc hacc _ part hp
    exact hacc part hp
  | cons e rest ih =>
    intro acc hacc hwf part hp
    rw [List.foldl_cons] at hp
    have hwfe : wfEvent e := hwf e (List.mem_cons_self _ _)
    have hwfr : ∀ e2 ∈ rest, wfEvent e2 := fun e2 h2 => hwf e2 (List.mem_cons_of_mem _ h2)
    have hstep : ∀ (acc2 : List MPart), (∀ p ∈ acc2, partSafe p ∧ partNoStrayLt p) →
        ∀ part2 ∈ rest.foldl _ acc2, partSafe part2 ∧ partNoStrayLt part2 :=
      fun acc2 hacc2 => ih acc2 hacc2 hwfr
    refine hstep _ ?_ part hp
    intro p hpmem
    cases e with
    | startTag tag attrs =>
      dsimp only at hpmem
      cases ha : appendStart tag attrs false with
      | none => rw [ha] at hpmem; exact hacc p hpmem
      | some newPart =>
        rw [ha] at hpmem
        rcases List.mem_append.mp hpmem with hold | hnew
        · exact hacc p hold
        · have : p = newPart := by simpa using hnew
          subst this
          refine ⟨appendStart_safe tag attrs false p ha, ?_⟩
          have : ∃ t a s, p = MPart.startPart t a s := by
            rw [appendStart] at ha
            cases hl : assocLookup ALLOWED_TAGS (lowerL tag) with
            | none => rw [hl] at ha; cases ha
            | some v =>
              rw [hl] at ha
              dsimp only at ha
              cases ha
              exact ⟨_, _, _, rfl⟩
          obtain ⟨t, a, sflag, rfl⟩ := this
          trivial
    | startEndTag tag attrs =>
      dsimp only at hpmem
      cases ha : appendStart tag attrs true with
      | none => rw [ha] at hpmem; exact hacc p hpmem
      | some newPart =>
        rw [ha] at hpmem
        rcases List.mem_append.mp hpmem with hold | hnew
        · exact hacc p hold
        · have : p = newPart := by simpa using hnew
          subst this
          refine ⟨appendStart_safe tag attrs true p ha, ?_⟩
          have : ∃ t a s, p = MPart.startPart t a s := by
            rw [appendStart] at ha
            cases hl : assocLookup ALLOWED_TAGS (lowerL tag) with
            | none => rw [hl] at ha; cases ha
            | some v =>
              rw [hl] at ha
              dsimp only at ha
              cases ha
              exact ⟨_, _, _, rfl⟩
          obtain ⟨t, a, sflag, rfl⟩ := this
          trivial
    | endTag tag =>
      dsimp only at hpmem
      by_cases hcond : lowerL tag ∈ ALLOWED_TAGS.map Prod.fst
          ∧ ¬ (lowerL tag ∈ SELF_CLOSING_TAGS)
      · rw [if_pos hcond] at hpmem
        rcases List.mem_append.mp hpmem with hold | hnew
        · exact hacc p hold
        · have : p = MPart.endPart (lowerL tag) := by simpa using hnew
          subst this
          exact ⟨hcond.1, trivial⟩
      · rw [if_neg hcond] at hpmem
        exact hacc p hpmem
    | dataRun text =>
      dsimp only at hpmem
      by_cases htext : text ≠ []
      · rw [if_pos htext] at hpmem
        rcases List.mem_append.mp hpmem with hold | hnew
        · exact hacc p hold
        · have : p = MPart.dataPart text := by simpa using hnew
          subst this
          exact ⟨trivial, htmlEscape_no_lt text⟩
      · rw [if_neg htext] at hpmem
        exact hacc p hpmem
    | entityRef name =>
      dsimp only at hpmem
      rcases List.mem_append.mp hpmem with hold | hnew
      · exact hacc p hold
      · have : p = MPart.entityPart name := by simpa using hnew
        subst this
        refine ⟨trivial, ?_⟩
        intro hlt
        rcases List.mem_cons.mp hlt with h1 | h2
        · cases h1
        · rcases List.mem_append.mp h2 with h3 | h4
          · exact hwfe h3
          · simp at h4
    | charRef name =>
      dsimp only at hpmem
      rcases List.mem_append.mp hpmem with hold | hnew
      · exact hacc p hold
      · have : p = MPart.charrefPart name := by simpa using hnew
        subst this
        refine ⟨trivial, ?_⟩
        intro hlt
        rw [renderPart] at hlt
        rcases List.mem_append.mp hlt with h1 | h2
        · exact absurd h1 (by decide)
        · rcases List.mem_append.mp h2 with h3 | h4
          · exact hwfe h3
          · simp at h4

/-- C9 counterexample: on `<p><a href="">e</a><a href="HTTPS://h">c</a></p>`
the sanitizer keeps both `href` values unchanged — the empty value begins
with no allowed scheme, and `HTTPS://h` does not literally begin with any of
the lowercase schemes — refuting the claim as stated. -/
theorem C9_counterexample :
    sanitizeMediumHtml
        (toL "<p><a href=\"\">e</a><a href=\"HTTPS://h\">c</a></p>") false
      = toL "<p><a href=\"\">e</a><a href=\"HTTPS://h\">c</a></p>"
    ∧ MPart.startPart (toL "a") [(toL "href", toL "")] false
        ∈ mediumFilterParts (tokenizeHtml (sanitizePreClean false
            (toL "<p><a href=\"\">e</a><a href=\"HTTPS://h\">c</a></p>")))
    ∧ MPart.startPart (toL "a") [(toL "href", toL "HTTPS://h")] false
        ∈ mediumFilterParts (tokenizeHtml (sanitizePreClean false
            (toL "<p><a href=\"\">e</a><a href=\"HTTPS://h\">c</a></p>")))
    ∧ (∀ sch ∈ ALLOWED_SCHEMES, ¬ leadsWith sch (toL "") = true)
    ∧ (∀ sch ∈ ALLOWED_SCHEMES, ¬ leadsWith sch (toL "HTTPS://h") = true) := by
  refine ⟨by decide, by decide, by decide, by decide, by decide⟩

/-- Events used by the C9 witness: one anchor with a `javascript:` URL and
one allowed title attribute. -/
def c9WitnessEvents : List HtmlEvent :=
  [.startTag (toL "a")
    [(toL "href", some (toL "javascript:alert(1)")), (toL "title", some (toL "T")),
     (toL "onclick", some (toL "x()"))]]

/-- Witness for the amended C9: instantiating the safety theorem at a
concrete event shows the emitted anchor part is structurally safe. -/
theorem C9_sanitize_whitelist_witness :
    partSafe (MPart.startPart (toL "a") [(toL "title", toL "T")] false)
      ∧ partNoStrayLt (MPart.startPart (toL "a") [(toL "title", toL "T")] false) :=
  C9_sanitize_whitelist.2.2 c9WitnessEvents
    (fun e he => by
      rw [c9WitnessEvents, List.mem_singleton] at he
      subst he
      trivial)
    (MPart.startPart (toL "a") [(toL "title", toL "T")] false) (by decide)

/-! ### C1 plumbing: detection predicates, extractors, plain-text fallback
(src/medium_selenium.py 584-637, 694-758, 884-904, 1560-1567) -/

/-- Word character for the `\b` boundaries of the detection regexes. -/
def isWordChar (c : Char) : Bool := isAsciiAlpha c ∨ isDigitC c ∨ c = '_'

/-- Generic scan: does the predicate match at some position? -/
def scanAny (p : List Char → Bool) : List Char → Bool
  | [] => p []
  | c :: cs => p (c :: cs) || scanAny p cs

/-- The tag alternation of `HTML_BLOCK_RE`. -/
def richTagNames : List (List Char) :=
  [toL "p", toL "strong", toL "em", toL "b", toL "i", toL "u", toL "a",
   toL "h1", toL "h2", toL "h3", toL "h4", toL "h5", toL "h6",
   toL "blockquote", toL "pre", toL "code", toL "ul", toL "ol", toL "li",
   toL "figure", toL "figcaption", toL "img", toL "section", toL "div",
   toL "span", toL "br", toL "hr"]

/-- `HTML_BLOCK_RE` match at the head: `<`, optional whitespace, one of the
block tag names, word boundary. -/
def matchBlockTagAt (s : List Char) : Bool :=
  match s with
  | '<' :: r1 =>
    let r2 := r1.dropWhile isPySpace
    richTagNames.any (fun n =>
      leadsWith n (lowerL r2)
        && (match r2.drop n.length with
            | [] => true
            | c :: _ => ! isWordChar c))
  | _ => false

/-- Embedding of `_looks_like_rich_html`. -/
def looksLikeRichHtml (s : List Char) : Bool :=
  s ≠ [] && scanAny matchBlockTagAt s

/-- `FULL_DOCUMENT_RE` match at the head. -/
def matchFullDocAt (s : List Char) : Bool :=
  let l := lowerL s
  let bdy := fun (n : Nat) =>
    match s.drop n with
    | [] => true
    | c :: _ => ! isWordChar c
  leadsWith (toL "<!doctype") l
    || (leadsWith (toL "<html") l && bdy 5)
    || (leadsWith (toL "<head") l && bdy 5)
    || (leadsWith (toL "<body") l && bdy 5)

/-- Embedding of `_is_full_html_document`. -/
def isFullHtmlDocument (s : List Char) : Bool :=
  s ≠ [] && scanAny matchFullDocAt s

/-- `MEDIUM_MARKUP_HINTS`. -/
def MEDIUM_MARKUP_HINTS : List (List Char) :=
  [toL "data-testid=\"editorparagraphtext\"",
   toL "data-testid='editorparagraphtext'",
   toL "data-testid=\"editorheadingtext\"",
   toL "data-testid='editorheadingtext'",
   toL "postarticle-content",
   toL "graf--"]

/-- Embedding of `_looks_like_medium_editor_markup`. -/
def looksLikeMediumEditorMarkup (s : List Char) : Bool :=
  s ≠ [] && MEDIUM_MARKUP_HINTS.any (fun h => occursIn h (lowerL s))

/-- Match `<NAME[^>]*>` at the head (case-insensitive, no boundary, exactly
as in the `_extract_document_body` patterns); returns the remainder. -/
def matchTagOpenAt (name : List Char) (s : List Char) : Option (List Char) :=
  match s with
  | '<' :: r1 =>
    if leadsWith name (lowerL r1) then
      let r2 := r1.drop name.length
      let body := r2.takeWhile (fun c => c ≠ '>')
      match r2.drop body.length with
      | '>' :: r3 => some r3
      | _ => none
    else none
  | _ => none

/-- Leftmost occurrence of an open tag. -/
def findTagOpen (name : List Char) : Nat → List Char → Option (List Char)
  | 0, _ => none
  | fuel + 1, s =>
    match matchTagOpenAt name s with
    | some rest => some rest
    | none =>
      match s with
      | [] => none
      | _ :: cs => findTagOpen name fuel cs

/-- The non-greedy `(.*?)close` capture: content before the leftmost
case-insensitive occurrence of `close`. -/
def findCloseLit (close : List Char) : Nat → List Char → Option (List Char)
  | 0, _ => none
  | fuel + 1, s =>
    if leadsWith close (lowerL s) then some []
    else
      match s with
      | [] => none
      | c :: cs => (findCloseLit close fuel cs).map (fun content => c :: content)

/-- `(?is)<NAME[^>]*>(.*?)</NAME>` search-and-capture. -/
def extractBetween (name : List Char) (s : List Char) : Option (List Char) :=
  match findTagOpen name (s.length + 1) s with
  | some rest => findCloseLit (toL "</" ++ (name ++ [ '>' ])) (rest.length + 1) rest
  | none => none

/-- Embedding of `_extract_document_body`. -/
def extractDocumentBody (s : List Char) : List Char :=
  match extractBetween (toL "article") s with
  | some c => c
  | none =>
    match extractBetween (toL "body") s with
    | some c => c
    | none =>
      match extractBetween (toL "main") s with
      | some c => c
      | none => s

/-- Match `<div[^>]+postArticle-content[^>]*>` at the head; the segment
before the first `>` must contain the marker at offset at least one. -/
def matchMediumInnerAt (s : List Char) : Option (List Char) :=
  if leadsWith (toL "<div") (lowerL s) then
    let r2 := s.drop 4
    let seg := r2.takeWhile (fun c => c ≠ '>')
    match r2.drop seg.length with
    | '>' :: r3 =>
      if seg ≠ [] ∧ occursIn (toL "postarticle-content") (lowerL seg.tail) then some r3
      else none
    | _ => none
  else none

/-- Leftmost `matchMediumInnerAt`. -/
def findMediumInner : Nat → List Char → Option (List Char)
  | 0, _ => none
  | fuel + 1, s =>
    match matchMediumInnerAt s with
    | some rest => some rest
    | none =>
      match s with
      | [] => none
      | _ :: cs => findMediumInner fuel cs

/-- Embedding of `_extract_medium_editable_inner`. -/
def extractMediumEditableInner (s : List Char) : List Char :=
  if s = [] then []
  else
    match findMediumInner (s.length + 1) s with
    | some rest =>
      match findCloseLit (toL "</div>") (rest.length + 1) rest with
      | some content => content
      | none => s
    | none => s

/-- Match `<br\s*/?>` at the head (case-insensitive); returns remainder. -/
def matchBrAt (s : List Char) : Option (List Char) :=
  if leadsWith (toL "<br") (lowerL s) then
    let r1 := (s.drop 3).dropWhile isPySpace
    match r1 with
    | '/' :: '>' :: r2 => some r2
    | '>' :: r2 => some r2
    | _ => none
  else none

/-- `re.sub(r"<br\s*/?>", "\n", ...)`. -/
def brSubGo : Nat → List Char → List Char
  | 0, s => s
  | fuel + 1, s =>
    match s with
    | [] => []
    | c :: cs =>
      match matchBrAt s with
      | some rest => '\n' :: brSubGo fuel rest
      | none => c :: brSubGo fuel cs

/-- Replace `<br>` variants by newlines. -/
def brSub (s : List Char) : List Char := brSubGo (s.length + 1) s

/-- Case-insensitive literal replace (pattern given lowercase). -/
def ciReplaceAllGo (pat rep : List Char) : Nat → List Char → List Char
  | 0, s => s
  | fuel + 1, s =>
    match s with
    | [] => []
    | c :: cs =>
      if pat ≠ [] ∧ leadsWith pat (lowerL s) then
        rep ++ ciReplaceAllGo pat rep fuel (s.drop pat.length)
      else c :: ciReplaceAllGo pat rep fuel cs

/-- Case-insensitive replace wrapper. -/
def ciReplaceAllL (pat rep s : List Char) : List Char :=
  ciReplaceAllGo pat rep (s.length + 1) s

/-- `re.sub(r"<[^>]+>", "", ...)`: drop complete nonempty tags. -/
def stripTagsGo : Nat → List Char → List Char
  | 0, s => s
  | fuel + 1, s =>
    match s with
    | [] => []
    | '<' :: cs =>
      let body := cs.takeWhile (fun c => c ≠ '>')
      (match cs.drop body.length with
       | '>' :: r2 =>
         if body ≠ [] then stripTagsGo fuel r2
         else '<' :: stripTagsGo fuel cs
       | _ => '<' :: stripTagsGo fuel cs)
    | c :: cs => c :: stripTagsGo fuel cs

/-- Tag stripper wrapper. -/
def stripTagsSub (s : List Char) : List Char := stripTagsGo (s.length + 1) s

/-- Partial model of `html.unescape`: named entities via the
`name2codepoint` table plus the XML basics, and decimal or hex character
references, all requiring the closing `;`; anything else is kept. -/
def htmlUnescapeGo : Nat → List Char → List Char
  | 0, s => s
  | fuel + 1, s =>
    match s with
    | [] => []
    | '&' :: cs =>
      (match cs with
       | '#' :: 'x' :: r2 =>
         let hex := r2.takeWhile (fun c =>
           isDigitC c ∨ ('a' ≤ c ∧ c ≤ 'f') ∨ ('A' ≤ c ∧ c ≤ 'F'))
         (match r2.drop hex.length with
          | ';' :: r3 =>
            if hex ≠ [] then
              Char.ofNat (hex.foldl (fun acc c =>
                16 * acc + (if isDigitC c then digitVal c
                  else if 'a' ≤ c ∧ c ≤ 'f' then c.toNat - 'a'.toNat + 10
                  else c.toNat - 'A'.toNat + 10)) 0) :: htmlUnescapeGo fuel r3
            else '&' :: htmlUnescapeGo fuel cs
          | _ => '&' :: htmlUnescapeGo fuel cs)
       | '#' :: r2 =>
         let digits := r2.takeWhile isDigitC
         (match r2.drop digits.length with
          | ';' :: r3 =>
            if digits ≠ [] then
              Char.ofNat (digits.foldl (fun acc c => 10 * acc + digitVal c) 0)
                :: htmlUnescapeGo fuel r3
            else '&' :: htmlUnescapeGo fuel cs
          | _ => '&' :: htmlUnescapeGo fuel cs)
       | _ =>
         let name := cs.takeWhile (fun c => isAsciiAlpha c ∨ isDigitC c)
         (match cs.drop name.length with
          | ';' :: r3 =>
            (match name2codepoint name with
             | some cp => Char.ofNat cp :: htmlUnescapeGo fuel r3
             | none => '&' :: htmlUnescapeGo fuel cs)
          | _ => '&' :: htmlUnescapeGo fuel cs))
    | c :: cs => c :: htmlUnescapeGo fuel cs

/-- Unescape wrapper. -/
def htmlUnescape (s : List Char) : List Char := htmlUnescapeGo (s.length + 1) s

/-- CRLF and CR normalization used throughout. -/
def crlfNormalize (s : List Char) : List Char :=
  replaceAllL (toL "\r") (toL "\n") (replaceAllL (toL "\r\n") (toL "\n") s)

/-- Embedding of `_html_to_plain_text`. -/
def htmlToPlainText (raw : List Char) : List Char :=
  if raw = [] then []
  else
    stripL (htmlUnescape (stripTagsSub (ciReplaceAllL (toL "</p>") (toL "\n\n")
      (brSub (crlfNormalize raw)))))

/-- The `_replace` callback of `_normalize_html_entities_for_xml`:
keep `lt`/`gt`, turn other known names into the literal character, keep
unknown names. -/
def xmlEntityReplace (name : List Char) : List Char :=
  let lower := lowerL name
  if lower = toL "lt" ∨ lower = toL "gt" then '&' :: (name ++ [';'])
  else
    match name2codepoint lower with
    | some cp => [Char.ofNat cp]
    | none => '&' :: (name ++ [';'])

/-- The `_HTML_ENTITY_PATTERN.sub(_replace, ...)` scan. -/
def xmlEntitySubGo : Nat → List Char → List Char
  | 0, s => s
  | fuel + 1, s =>
    match s with
    | [] => []
    | '&' :: cs =>
      match matchEntityName cs with
      | some (name, rest) => xmlEntityReplace name ++ xmlEntitySubGo fuel rest
      | none => '&' :: xmlEntitySubGo fuel cs
    | c :: cs => c :: xmlEntitySubGo fuel cs

/-- Embedding of `_normalize_html_entities_for_xml`. -/
def normalizeHtmlEntitiesForXml (s : List Char) : List Char :=
  if s = [] ∨ ¬ occursIn ['&'] s then s
  else xmlEntitySubGo (s.length + 1) s

/-! ### C1: XML fragment parser (model of `ET.fromstring` on the
`<root>`-wrapped fragment; elements/attributes/text/tails with the five
predefined entities and numeric character references; comments, processing
instructions and CDATA are not modelled and make the parse fail) -/

mutual
inductive XElem : Type where
  | mk (tag : List Char) (attrs : List (List Char × List Char))
       (text : List Char) (children : XChildren)
inductive XChildren : Type where
  | nil : XChildren
  | cons (elem : XElem) (tail : List Char) (rest : XChildren) : XChildren
end

/-- Element tag. -/
def XElem.tag : XElem → List Char
  | .mk t _ _ _ => t

/-- Element text (text before the first child; `None` and `""` both map
to `[]`). -/
def XElem.text : XElem → List Char
  | .mk _ _ t _ => t

/-- Element children. -/
def XElem.children : XElem → XChildren
  | .mk _ _ _ c => c

/-- Children as a plain list of (element, tail) pairs. -/
def XChildren.toList : XChildren → List (XElem × List Char)
  | .nil => []
  | .cons e t r => (e, t) :: XChildren.toList r

/-- ASCII XML name start character. -/
def isXmlNameStart (c : Char) : Bool := isAsciiAlpha c || c = '_' || c = ':'

/-- ASCII XML name character. -/
def isXmlNameChar (c : Char) : Bool :=
  isXmlNameStart c || isDigitC c || c = '-' || c = '.'

/-- Hexadecimal digit. -/
def isHexC (c : Char) : Bool :=
  isDigitC c || (decide ('a' ≤ c) && decide (c ≤ 'f'))
    || (decide ('A' ≤ c) && decide (c ≤ 'F'))

/-- Value of a hexadecimal digit. -/
def hexVal (c : Char) : Nat :=
  if isDigitC c then digitVal c
  else if decide ('a' ≤ c) && decide (c ≤ 'f') then c.toNat - 'a'.toNat + 10
  else c.toNat - 'A'.toNat + 10

/-- Decode one XML entity or character reference right after `&`;
undefined entities are a parse error (`none`). -/
def xmlDecodeRef (s : List Char) : Option (Char × List Char) :=
  match s with
  | '#' :: 'x' :: r =>
    let hex := r.takeWhile isHexC
    (match r.drop hex.length with
     | ';' :: r2 =>
       if hex ≠ [] then
         some (Char.ofNat (hex.foldl (fun acc c => 16 * acc + hexVal c) 0), r2)
       else none
     | _ => none)
  | '#' :: r =>
    let digits := r.takeWhile isDigitC
    (match r.drop digits.length with
     | ';' :: r2 =>
       if digits ≠ [] then
         some (Char.ofNat (digits.foldl (fun acc c => 10 * acc + digitVal c) 0), r2)
       else none
     | _ => none)
  | _ =>
    let name := s.takeWhile isXmlNameChar
    (match s.drop name.length with
     | ';' :: r2 =>
       if name = toL "lt" then some ('<', r2)
       else if name = toL "gt" then some ('>', r2)
       else if name = toL "amp" then some ('&', r2)
       else if name = toL "quot" then some ('"', r2)
       else if name = toL "apos" then some ('\'', r2)
       else none
     | _ => none)

/-- Character data up to the next `<` (or the end), with references
decoded; a malformed reference is a parse error. -/
def parseXText : Nat → List Char → Option (List Char × List Char)
  | 0, _ => none
  | fuel + 1, s =>
    match s with
    | [] => some ([], [])
    | '<' :: _ => some ([], s)
    | '&' :: cs =>
      (match xmlDecodeRef cs with
       | some (c, rest) => (parseXText fuel rest).map (fun p => (c :: p.1, p.2))
       | none => none)
    | c :: cs => (parseXText fuel cs).map (fun p => (c :: p.1, p.2))

/-- A quoted attribute value terminated by the quote `q`. -/
def parseXAttrValue : Nat → Char → List Char → Option (List Char × List Char)
  | 0, _, _ => none
  | fuel + 1, q, s =>
    match s with
    | [] => none
    | c :: cs =>
      if c = q then some ([], cs)
      else if c = '<' then none
      else if c = '&' then
        match xmlDecodeRef cs with
        | some (d, rest) => (parseXAttrValue fuel q rest).map (fun p => (d :: p.1, p.2))
        | none => none
      else (parseXAttrValue fuel q cs).map (fun p => (c :: p.1, p.2))

/-- Attribute list after the tag name, ending at `>` (false) or `/>`
(true); each attribute is preceded by whitespace. -/
def parseXAttrs : Nat → List Char → Option (List (List Char × List Char) × Bool × List Char)
  | 0, _ => none
  | fuel + 1, s =>
    match s with
    | [] => none
    | '>' :: r => some ([], false, r)
    | '/' :: '>' :: r => some ([], true, r)
    | c :: _ =>
      if isPySpace c then
        let s1 := s.dropWhile isPySpace
        match s1 with
        | [] => none
        | '>' :: r => some ([], false, r)
        | '/' :: '>' :: r => some ([], true, r)
        | c2 :: _ =>
          if isXmlNameStart c2 then
            let name := s1.takeWhile isXmlNameChar
            let r2 := (s1.drop name.length).dropWhile isPySpace
            match r2 with
            | '=' :: r3 =>
              let r4 := r3.dropWhile isPySpace
              (match r4 with
               | q :: r5 =>
                 if q = '"' ∨ q = '\'' then
                   match parseXAttrValue (r5.length + 1) q r5 with
                   | some (v, r6) =>
                     (parseXAttrs fuel r6).map
                       (fun t => ((name, v) :: t.1, t.2.1, t.2.2))
                   | none => none
                 else none
               | [] => none)
            | _ => none
          else none
      else none

mutual
/-- One element, positioned right after its `<`. -/
def parseXElement : Nat → List Char → Option (XElem × List Char)
  | 0, _ => none
  | fuel + 1, s =>
    match s with
    | [] => none
    | c :: _ =>
      if isXmlNameStart c then
        let name := s.takeWhile isXmlNameChar
        let r1 := s.drop name.length
        match parseXAttrs (r1.length + 1) r1 with
        | some (attrs, true, r2) => some (.mk name attrs [] .nil, r2)
        | some (attrs, false, r2) =>
          (match parseXText (r2.length + 1) r2 with
           | some (text, r3) =>
             match parseXChildren fuel r3 with
             | some (children, r4) =>
               (match r4 with
                | '<' :: '/' :: r5 =>
                  if leadsWith name r5 then
                    let r6 := (r5.drop name.length).dropWhile isPySpace
                    (match r6 with
                     | '>' :: r7 => some (.mk name attrs text children, r7)
                     | _ => none)
                  else none
                | _ => none)
             | none => none
           | none => none)
        | none => none
      else none

/-- Sibling (element, tail) sequence, stopped by `</` or the end. -/
def parseXChildren : Nat → List Char → Option (XChildren × List Char)
  | 0, _ => none
  | fuel + 1, s =>
    match s with
    | [] => some (.nil, [])
    | '<' :: '/' :: _ => some (.nil, s)
    | '<' :: rest =>
      (match parseXElement fuel rest with
       | some (e, r2) =>
         match parseXText (r2.length + 1) r2 with
         | some (tail, r3) =>
           (match parseXChildren fuel r3 with
            | some (more, r4) => some (.cons e tail more, r4)
            | none => none)
         | none => none
       | none => none)
    | _ => none
end

/-- Embedding of `ET.fromstring("<root>" + fragment + "</root>")`,
returning the root's children (all the fragment data the caller uses). -/
def xmlParseFragment (fragment : List Char) : Option XChildren :=
  match parseXText (fragment.length + 1) fragment with
  | some (_, r1) =>
    (match parseXChildren (r1.length + 2) r1 with
     | some (children, r2) => if r2 = [] then some children else none
     | none => none)
  | none => none

mutual
/-- Embedding of `_render_inline_text`. -/
def renderInlineText : XElem → List Char
  | .mk _ _ text children => text ++ renderInlineChildren children

/-- The child loop of `_render_inline_text`: `br` becomes a newline,
other children recurse, tails are appended. -/
def renderInlineChildren : XChildren → List Char
  | .nil => []
  | .cons child tail rest =>
    (if lowerL child.tag = toL "br" then ['\n'] else renderInlineText child)
      ++ (tail ++ renderInlineChildren rest)
end

mutual
/-- `"".join(element.itertext())`. -/
def iterTextElem : XElem → List Char
  | .mk _ _ text children => text ++ iterTextChildren children

/-- Concatenated text of a child sequence, tails included. -/
def iterTextChildren : XChildren → List Char
  | .nil => []
  | .cons child tail rest => iterTextElem child ++ (tail ++ iterTextChildren rest)
end

/-- The block dictionaries built by `_html_fragment_to_blocks`. -/
inductive MBlock : Type where
  | paragraph (text : List Char)
  | heading (level : Nat) (text : List Char)
  | quote (lines : List (List Char))
  | ulist (items : List (List Char))
  | olist (items : List (List Char))
  | code (text : List Char)
  | hr
deriving Repr, DecidableEq

/-- Python `str.rstrip("\n")`. -/
def rstripNl (s : List Char) : List Char :=
  (s.reverse.dropWhile (fun c => c = '\n')).reverse

/-- Embedding of `process_element` inside `_html_fragment_to_blocks`;
each call appends at most one block. -/
def processElement (e : XElem) : Option MBlock :=
  let tag := lowerL e.tag
  if tag = toL "h1" ∨ tag = toL "h2" ∨ tag = toL "h3"
      ∨ tag = toL "h4" ∨ tag = toL "h5" ∨ tag = toL "h6" then
    let level := digitVal ((tag.drop 1).headD '0')
    let stripped := stripL (renderInlineText e)
    if stripped ≠ [] then some (.heading level stripped) else none
  else if tag = toL "p" then
    let stripped := stripL (renderInlineText e)
    if stripped ≠ [] then some (.paragraph stripped) else none
  else if tag = toL "blockquote" then
    -- the source's if/else inside the child loop appends the same value
    -- in both branches
    let lines := (XChildren.toList e.children).map (fun p => renderInlineText p.1)
    let lines := if e.text ≠ [] ∧ stripL e.text ≠ [] then e.text :: lines else lines
    let clean := (lines.filter (fun l => stripL l ≠ [])).map stripL
    if clean ≠ [] then some (.quote clean) else none
  else if tag = toL "ul" then
    let items := ((XChildren.toList e.children).filter
      (fun p => XElem.tag p.1 = toL "li")).map (fun p => renderInlineText p.1)
    let clean := (items.filter (fun i => stripL i ≠ [])).map stripL
    if clean ≠ [] then some (.ulist clean) else none
  else if tag = toL "ol" then
    let items := ((XChildren.toList e.children).filter
      (fun p => XElem.tag p.1 = toL "li")).map (fun p => renderInlineText p.1)
    let clean := (items.filter (fun i => stripL i ≠ [])).map stripL
    if clean ≠ [] then some (.olist clean) else none
  else if tag = toL "pre" then
    let text := if e.text ≠ [] then e.text else iterTextElem e
    let text2 := rstripNl text
    if text2 ≠ [] then some (.code text2) else none
  else if tag = toL "code" ∧ stripL e.text ≠ [] then
    some (.code (stripL e.text))
  else if tag = toL "hr" then some .hr
  else
    let text := renderInlineText e
    if stripL text ≠ [] then some (.paragraph text) else none

/-- Embedding of `_html_fragment_to_blocks`. -/
def htmlFragmentToBlocks (fragment : List Char) : List MBlock :=
  let fragment := normalizeHtmlEntitiesForXml fragment
  match xmlParseFragment fragment with
  | none => [.paragraph (htmlToPlainText fragment)]
  | some children => (XChildren.toList children).filterMap (fun p => processElement p.1)

/-! ### C1: from blocks to the final text blob
(src/medium_selenium.py 944-959, 1490-1543, 906-941) -/

/-- `enumerate(items, start=n)`. -/
def enumFrom {α : Type} (n : Nat) : List α → List (Nat × α)
  | [] => []
  | x :: xs => (n, x) :: enumFrom (n + 1) xs

/-- Python `str.splitlines()` restricted to `\n` separators (the only
separator that can occur in this pipeline after CR normalization). -/
def splitLinesNl (s : List Char) : List (List Char) :=
  if s = [] then []
  else if s.getLast? = some '\n' then (s.splitOn '\n').dropLast
  else s.splitOn '\n'

/-- The lines one block contributes in `_blocks_to_medium_lines`,
including the blank separator line appended after every block. -/
def blockLines : MBlock → List (List Char)
  | .heading level text =>
    [List.replicate (max 1 (min 6 level)) '#' ++ (' ' :: stripL text), []]
  | .paragraph text => [stripL text, []]
  | .quote lines => lines.map (fun l => toL "> " ++ stripL l) ++ [[]]
  | .ulist items => items.map (fun i => toL "- " ++ stripL i) ++ [[]]
  | .olist items =>
    (enumFrom 1 items).map
      (fun p => Nat.toDigits 10 p.1 ++ (toL ". " ++ stripL p.2)) ++ [[]]
  | .code text =>
    toL "```" ::
      ((if text ≠ [] then (splitLinesNl text).map rstripNl else [])
        ++ [toL "```", []])
  | .hr => [toL "---", []]

/-- The trailing `while lines and lines[-1] == "": lines.pop()` loop. -/
def trimTrailingBlanks (l : List (List Char)) : List (List Char) :=
  (l.reverse.dropWhile (fun x => x = [])).reverse

/-- Embedding of `_blocks_to_medium_lines` (the sequential per-block
appends are the concatenation of `blockLines`). -/
def blocksToMediumLines (blocks : List MBlock) : List (List Char) :=
  trimTrailingBlanks (blocks.flatMap blockLines)

/-- CR/CRLF normalization shared by `_text_to_medium_lines` and
`_collapse_medium_lines`. -/
def textToMediumLines (text : List Char) : List (List Char) :=
  if text = [] then []
  else ((crlfNormalize text).splitOn '\n').map rstripL

/-- `_append_piece` inside `_collapse_medium_lines`. -/
def collapseAppendPiece (collapsed : List (List Char)) (text : List Char) :
    List (List Char) :=
  let cleaned := rstripL text
  if cleaned ≠ [] then collapsed ++ [cleaned]
  else if collapsed.getLast? = some [] then collapsed
  else collapsed ++ [[]]

/-- Embedding of `_collapse_medium_lines` (no line is `None` in this
embedding, so the `value is None` branch does not arise). -/
def collapseMediumLines (lines : List (List Char)) : List (List Char) :=
  trimTrailingBlanks
    (lines.foldl (fun acc value =>
      ((crlfNormalize value).splitOn '\n').foldl collapseAppendPiece acc) [])

/-- Embedding of `_html_fragment_to_rich_lines`. -/
def htmlFragmentToRichLines (bodyHtml : List Char) : List (List Char) :=
  if bodyHtml = [] then []
  else
    let blocks := htmlFragmentToBlocks bodyHtml
    let lines := blocksToMediumLines blocks
    if lines ≠ [] then lines
    else textToMediumLines (htmlToPlainText bodyHtml)

/-- Embedding of `_prepare_medium_body_content` (the `title_hint`
parameter is never read; the `is_medium_markup` update inside the
full-document branch does not affect the result). -/
def prepareMediumBodyContent (rawBody : List Char) : Bool × List Char × Bool :=
  if rawBody = [] then (false, [], false)
  else
    let body := stripL rawBody
    if body = [] then (false, [], false)
    else
      let isMediumMarkup := looksLikeMediumEditorMarkup body
      if isFullHtmlDocument body then
        let fragment := extractDocumentBody body
        let fragment := extractMediumEditableInner fragment
        let sanitized := sanitizeMediumHtml fragment false
        if sanitized ≠ [] ∧ looksLikeRichHtml sanitized then (true, sanitized, false)
        else (false, htmlToPlainText fragment, false)
      else if looksLikeRichHtml body then
        let sanitized := sanitizeMediumHtml
          (if isMediumMarkup then extractMediumEditableInner body else body) false
        if sanitized ≠ [] ∧ looksLikeRichHtml sanitized then (true, sanitized, false)
        else (false, htmlToPlainText body, false)
      else (false, body, false)

/-- `"\n".join`. -/
def joinNl (l : List (List Char)) : List Char := List.intercalate ['\n'] l

/-- `re.sub(r"\n{2,}", "\n", ...)`: collapse newline runs. -/
def collapseNlRunsGo : Nat → List Char → List Char
  | 0, s => s
  | fuel + 1, s =>
    match s with
    | c1 :: c2 :: cs =>
      if c1 = '\n' ∧ c2 = '\n' then collapseNlRunsGo fuel ('\n' :: cs)
      else c1 :: collapseNlRunsGo fuel (c2 :: cs)
    | [c] => [c]
    | [] => []

/-- Newline-run collapse wrapper. -/
def collapseNlRuns (s : List Char) : List Char := collapseNlRunsGo s.length s

/-- Python `str.strip("\n")`. -/
def stripNlEnds (s : List Char) : List Char :=
  ((s.dropWhile (fun c => c = '\n')).reverse.dropWhile (fun c => c = '\n')).reverse

/-- The `collapsed` list computed by `render_medium_body_text` before the
final join. -/
def renderCollapsedLines (bodyHtml : List Char) : List (List Char) :=
  let res := prepareMediumBodyContent bodyHtml
  let isHtml := res.1
  let prepared := res.2.1
  let lines :=
    if isHtml then
      let l := htmlFragmentToRichLines prepared
      if l = [] then textToMediumLines (htmlToPlainText prepared) else l
    else textToMediumLines prepared
  let lines2 := if lines = [] ∧ prepared ≠ [] then [prepared] else lines
  collapseMediumLines lines2

/-- Embedding of `render_medium_body_text`: join the collapsed lines,
collapse newline runs, strip boundary newlines. -/
def renderMediumBodyTextL (bodyHtml : List Char) : List Char :=
  stripNlEnds (collapseNlRuns (joinNl (renderCollapsedLines bodyHtml)))

/-! ### C1: spec-side block translation and output-shape predicates -/

/-- The claim's block-by-block translation, with the quote rule read off
the code: a heading of level N becomes `max 1 (min 6 N)` hash marks, a
space and the stripped text; a paragraph becomes its stripped text; each
stored blockquote line is prefixed with `> `; each unordered item with
`- `; each ordered item with its 1-based index and `. `; code text is
wrapped between triple-backtick fence lines; a rule becomes `---`. -/
def specBlockRender : MBlock → List (List Char)
  | .heading level text =>
    [List.replicate (max 1 (min 6 level)) '#' ++ (' ' :: stripL text)]
  | .paragraph text => [stripL text]
  | .quote lines => lines.map (fun l => '>' :: (' ' :: stripL l))
  | .ulist items => items.map (fun i => '-' :: (' ' :: stripL i))
  | .olist items =>
    (enumFrom 1 items).map
      (fun p => Nat.toDigits 10 p.1 ++ ('.' :: (' ' :: stripL p.2)))
  | .code text =>
    (toL "```" :: (if text ≠ [] then (splitLinesNl text).map rstripNl else []))
      ++ [toL "```"]
  | .hr => [toL "---"]

/-- The claim's line list: blocks separated by blank lines, trailing
blank lines dropped. -/
def specBlockLines (blocks : List MBlock) : List (List Char) :=
  trimTrailingBlanks (blocks.flatMap (fun b => specBlockRender b ++ [[]]))

/-- Two consecutive newline characters occur somewhere. -/
def hasDoubleNl : List Char → Bool
  | c1 :: c2 :: cs => (c1 = '\n' && c2 = '\n') || hasDoubleNl (c2 :: cs)
  | _ => false

theorem blockLines_eq_spec (b : MBlock) : blockLines b = specBlockRender b ++ [[]] := by
  cases b <;> first
    | rfl
    | simp [blockLines, specBlockRender, List.append_assoc]

theorem blocksToMediumLines_eq_spec (blocks : List MBlock) :
    blocksToMediumLines blocks = specBlockLines blocks := by
  unfold blocksToMediumLines specBlockLines
  congr 1
  induction blocks with
  | nil => rfl
  | cons b rest ih =>
    simp only [List.flatMap_cons, ih, blockLines_eq_spec]

theorem dropWhileHeadFalse {α : Type} (p : α → Bool) (l : List α) :
    ∀ c, (l.dropWhile p).head? = some c → p c = false := by
  induction l with
  | nil => intro c h; simp [List.dropWhile] at h
  | cons a as ih =>
    intro c h
    by_cases hp : p a
    · rw [List.dropWhile_cons_of_pos hp] at h
      exact ih c h
    · rw [List.dropWhile_cons_of_neg hp] at h
      simp only [List.head?_cons, Option.some.injEq] at h
      subst h
      exact Bool.eq_false_iff.mpr hp

theorem dropWhileEqSelfOfHead {α : Type} (p : α → Bool) (l : List α)
    (h : ∀ c, l.head? = some c → p c = false) : l.dropWhile p = l := by
  cases l with
  | nil => rfl
  | cons a as =>
    rw [List.dropWhile_cons_of_neg (by simp [h a rfl])]

theorem dropWhileIdem {α : Type} (p : α → Bool) (l : List α) :
    (l.dropWhile p).dropWhile p = l.dropWhile p :=
  dropWhileEqSelfOfHead p _ (fun c hc => dropWhileHeadFalse p l c hc)

theorem dropTrailingPrefix (p : Char → Bool) (l : List Char) :
    (l.reverse.dropWhile p).reverse <+: l := by
  have h2 := List.reverse_prefix.mpr (List.dropWhile_suffix (l := l.reverse) p)
  simpa using h2

theorem prefixHead {α : Type} {l₁ l₂ : List α} (h : l₁ <+: l₂) {c : α}
    (hc : l₁.head? = some c) : l₂.head? = some c := by
  rcases h with ⟨t, ht⟩
  rw [← ht, List.head?_append, hc]
  rfl

theorem stripL_idem (s : List Char) : stripL (stripL s) = stripL s := by
  unfold stripL
  rw [dropWhileEqSelfOfHead isPySpace _ (fun c hc =>
    dropWhileHeadFalse isPySpace s c
      (prefixHead (dropTrailingPrefix isPySpace (s.dropWhile isPySpace)) hc))]
  rw [List.reverse_reverse, dropWhileIdem]

theorem trimTrailingBlanks_eq_nil {l : List (List Char)}
    (h : trimTrailingBlanks l = []) : ∀ y ∈ l, y = [] := by
  unfold trimTrailingBlanks at h
  rw [List.reverse_eq_nil_iff] at h
  intro y hy
  have hmem : y ∈ l.reverse := by simpa using hy
  have := List.dropWhile_eq_nil_iff.mp h y hmem
  simpa using this

theorem existsLineOfMap {α : Type} (f : α → List Char) (l : List α)
    (hf : ∀ a, f a ≠ []) (hl : l ≠ []) : ∃ x ∈ l.map f ++ [[]], x ≠ [] := by
  obtain ⟨c, hc⟩ := List.exists_mem_of_ne_nil l hl
  exact ⟨f c, List.mem_append_left _ (List.mem_map_of_mem f hc), hf c⟩

theorem enumFrom_ne_nil {α : Type} (n : Nat) (l : List α) (h : l ≠ []) :
    enumFrom n l ≠ [] := by
  cases l with
  | nil => exact absurd rfl h
  | cons a as => simp [enumFrom]

theorem processElement_lines_ne (e : XElem) (b : MBlock)
    (h : processElement e = some b) : ∃ x ∈ blockLines b, x ≠ [] := by
  unfold processElement at h
  dsimp only at h
  repeat' split at h
  all_goals try exact Option.noConfusion h
  all_goals injection h with hb
  all_goals subst hb
  all_goals dsimp only [blockLines]
  all_goals first
    | (refine ⟨_, List.mem_cons_self _ _, ?_⟩; rw [stripL_idem]; assumption)
    | (refine ⟨_, List.mem_cons_self _ _, ?_⟩; assumption)
    | exact ⟨_, List.mem_cons_self _ _, by first | decide | simp⟩
    | exact existsLineOfMap _ _ (fun a => List.cons_ne_nil _ _) (by assumption)
    | exact existsLineOfMap _ _
        (fun a => by
          intro h0
          exact absurd (List.append_eq_nil.mp (List.append_eq_nil.mp h0).2).1
            (by decide))
        (enumFrom_ne_nil _ _ (by assumption))

theorem blocksToMediumLines_ne_nil (blocks : List MBlock)
    (hne : blocks ≠ [])
    (hg : ∀ b ∈ blocks, ∃ x ∈ blockLines b, x ≠ []) :
    blocksToMediumLines blocks ≠ [] := by
  intro h0
  rcases blocks with _ | ⟨b, rest⟩
  · exact hne rfl
  · rcases hg b (List.mem_cons_self _ _) with ⟨x, hx, hxne⟩
    have hmem : x ∈ (b :: rest).flatMap blockLines :=
      List.mem_flatMap.mpr ⟨b, List.mem_cons_self _ _, hx⟩
    exact hxne (trimTrailingBlanks_eq_nil h0 x hmem)

theorem collapseNlRunsGo_spec : ∀ (fuel : Nat) (s : List Char), s.length ≤ fuel →
    hasDoubleNl (collapseNlRunsGo fuel s) = false
      ∧ (collapseNlRunsGo fuel s).head? = s.head? := by
  intro fuel
  induction fuel with
  | zero =>
    intro s hs
    have h0 : s = [] := List.eq_nil_of_length_eq_zero (Nat.le_zero.mp hs)
    subst h0
    exact ⟨rfl, rfl⟩
  | succ n ih =>
    intro s hs
    rcases s with _ | ⟨c1, _ | ⟨c2, cs⟩⟩
    · exact ⟨rfl, rfl⟩
    · exact ⟨rfl, rfl⟩
    · have hg : collapseNlRunsGo (n + 1) (c1 :: c2 :: cs)
          = if c1 = '\n' ∧ c2 = '\n' then collapseNlRunsGo n ('\n' :: cs)
            else c1 :: collapseNlRunsGo n (c2 :: cs) := rfl
      by_cases hnl : c1 = '\n' ∧ c2 = '\n'
      · rw [hg, if_pos hnl]
        obtain ⟨ihd, ihh⟩ := ih ('\n' :: cs) (by simp at hs ⊢; omega)
        refine ⟨ihd, ?_⟩
        rw [ihh]
        simp [hnl.1]
      · rw [hg, if_neg hnl]
        obtain ⟨ihd, ihh⟩ := ih (c2 :: cs) (by simp at hs ⊢; omega)
        constructor
        · cases hout : collapseNlRunsGo n (c2 :: cs) with
          | nil => rfl
          | cons d ds =>
            have hd : d = c2 := by
              rw [hout] at ihh
              simpa using ihh
            subst hd
            have hrw : hasDoubleNl (c1 :: d :: ds)
                = (((c1 = '\n' : Bool) && (d = '\n' : Bool)) || hasDoubleNl (d :: ds)) := rfl
            rw [hrw]
            rw [hout] at ihd
            rw [ihd]
            rcases not_and_or.mp hnl with hn | hn
            · simp [hn]
            · simp [hn]
        · rw [List.head?_cons, List.head?_cons]

theorem hasDoubleNl_iff (l : List Char) :
    hasDoubleNl l = true ↔ ['\n', '\n'] <:+: l := by
  induction l with
  | nil =>
    constructor
    · intro h; exact absurd h (by decide)
    · intro h; have := h.length_le; simp at this
  | cons c cs ih =>
    cases cs with
    | nil =>
      constructor
      · intro h
        exact Bool.noConfusion ((show hasDoubleNl [c] = false from rfl).symm.trans h)
      · intro h; have := h.length_le; simp at this
    | cons d ds =>
      rw [show hasDoubleNl (c :: d :: ds)
        = (((c = '\n' : Bool) && (d = '\n' : Bool)) || hasDoubleNl (d :: ds)) from rfl]
      rw [Bool.or_eq_true, Bool.and_eq_true]
      constructor
      · rintro (⟨h1, h2⟩ | h)
        · have hc : c = '\n' := by simpa using h1
          have hd2 : d = '\n' := by simpa using h2
          subst hc; subst hd2
          exact ⟨[], ds, rfl⟩
        · exact List.infix_cons (ih.mp h)
      · intro h
        rcases List.infix_cons_iff.mp h with hpre | hrest
        · rcases hpre with ⟨t, ht⟩
          injection ht with h1 ht2
          injection ht2 with h2 _
          subst h1; subst h2
          exact Or.inl ⟨by simp, by simp⟩
        · exact Or.inr (ih.mpr hrest)

theorem stripNlEnds_within (s : List Char) : stripNlEnds s <:+: s := by
  unfold stripNlEnds
  exact (dropTrailingPrefix _ _).isInfix.trans (List.dropWhile_suffix _).isInfix

theorem stripNlEnds_props (s : List Char) (h : hasDoubleNl s = false) :
    hasDoubleNl (stripNlEnds s) = false
    ∧ (stripNlEnds s).head? ≠ some '\n'
    ∧ (stripNlEnds s).getLast? ≠ some '\n' := by
  refine ⟨?_, ?_, ?_⟩
  · cases hv : hasDoubleNl (stripNlEnds s) with
    | false => rfl
    | true =>
      exfalso
      have hinf := (hasDoubleNl_iff _).mp hv
      have hs : hasDoubleNl s = true :=
        (hasDoubleNl_iff s).mpr (hinf.trans (stripNlEnds_within s))
      rw [h] at hs
      cases hs
  · intro hc
    unfold stripNlEnds at hc
    have hu := prefixHead (dropTrailingPrefix _ _) hc
    have := dropWhileHeadFalse _ s _ hu
    simp at this
  · intro hc
    unfold stripNlEnds at hc
    rw [List.getLast?_reverse] at hc
    have := dropWhileHeadFalse _ _ _ hc
    simp at this

/-- C1 counterexample: `render_medium_body_text` on
`<blockquote><p>a<br/>b</p></blockquote>` returns `> a\nb`; the
blockquote's content spans the two output lines `> a` and `b`, and the
second one is not prefixed with `> `, contradicting the claim that each
line of a blockquote is prefixed with `> `. -/
theorem C1_counterexample :
    renderMediumBodyTextL (toL "<blockquote><p>a<br/>b</p></blockquote>") = toL "> a\nb"
    ∧ (toL "> a\nb").splitOn '\n' = [toL "> a", toL "b"]
    ∧ leadsWith (toL "> ") (toL "b") = false := by
  refine ⟨by decide, by decide, by decide⟩

/-- C1: `render_medium_body_text` is the block-by-block translation of
the parsed fragment, with the quote rule amended: (1) the lines of
`_blocks_to_medium_lines` are exactly the claimed per-block lines —
`max 1 (min 6 N)` hash marks for a heading, the stripped inline text for
a paragraph, a `> ` prefix on each stored blockquote line (not on each
final output line), `- ` and 1-based `N. ` item prefixes, triple-backtick
fences around code, `---` for a rule — separated by blank lines with
trailing blanks dropped; (2) whenever `_prepare_medium_body_content`
yields sanitized HTML and the normalized fragment parses with at least
one block, the returned blob is the join of those collapsed block lines
with newline runs collapsed and boundary newlines stripped; (3) for every
input the returned blob contains no two consecutive newlines and neither
starts nor ends with a newline. -/
theorem C1_render_blocks :
    (∀ blocks : List MBlock, blocksToMediumLines blocks = specBlockLines blocks)
    ∧ (∀ (body prepared : List Char) (flag : Bool) (children : XChildren)
        (blocks : List MBlock),
        prepareMediumBodyContent body = (true, prepared, flag) →
        prepared ≠ [] →
        xmlParseFragment (normalizeHtmlEntitiesForXml prepared) = some children →
        (XChildren.toList children).filterMap (fun p => processElement p.1) = blocks →
        blocks ≠ [] →
        renderMediumBodyTextL body
          = stripNlEnds (collapseNlRuns (joinNl (collapseMediumLines
              (specBlockLines blocks)))))
    ∧ (∀ body : List Char,
        hasDoubleNl (renderMediumBodyTextL body) = false
        ∧ (renderMediumBodyTextL body).head? ≠ some '\n'
        ∧ (renderMediumBodyTextL body).getLast? ≠ some '\n') := by
  refine ⟨blocksToMediumLines_eq_spec, ?_, ?_⟩
  · intro body prepared flag children blocks h1 h2 h3 h4 h5
    have hgood : ∀ b ∈ blocks, ∃ x ∈ blockLines b, x ≠ [] := by
      intro b hb
      rw [← h4] at hb
      rcases List.mem_filterMap.mp hb with ⟨p, _, hp⟩
      exact processElement_lines_ne _ _ hp
    have hBL : blocksToMediumLines blocks ≠ [] :=
      blocksToMediumLines_ne_nil blocks h5 hgood
    have hb2 : htmlFragmentToBlocks prepared = blocks := by
      unfold htmlFragmentToBlocks
      dsimp only
      rw [h3]
      exact h4
    have hrich : htmlFragmentToRichLines prepared = blocksToMediumLines blocks := by
      unfold htmlFragmentToRichLines
      rw [if_neg h2]
      dsimp only
      rw [hb2, if_pos hBL]
    have hcoll : renderCollapsedLines body
        = collapseMediumLines (blocksToMediumLines blocks) := by
      unfold renderCollapsedLines
      rw [h1]
      dsimp only
      rw [if_pos rfl, hrich, if_neg hBL,
        if_neg (fun hcon => hBL hcon.1)]
    unfold renderMediumBodyTextL
    rw [hcoll, blocksToMediumLines_eq_spec]
  · intro body
    have hD : hasDoubleNl (collapseNlRuns (joinNl (renderCollapsedLines body)))
        = false := (collapseNlRunsGo_spec _ _ (le_refl _)).1
    unfold renderMediumBodyTextL
    exact stripNlEnds_props _ hD

/-- Witness for C1: on `<p>hi</p>` the pipeline hypotheses hold
concretely and the blob equals the spec translation of the single
paragraph block. -/
theorem C1_render_blocks_witness :
    renderMediumBodyTextL (toL "<p>hi</p>")
      = stripNlEnds (collapseNlRuns (joinNl (collapseMediumLines
          (specBlockLines [MBlock.paragraph (toL "hi")])))) :=
  C1_render_blocks.2.1 (toL "<p>hi</p>") (toL "<p>hi</p>") false
    (XChildren.cons (XElem.mk (toL "p") [] (toL "hi") XChildren.nil) [] XChildren.nil)
    [MBlock.paragraph (toL "hi")]
    (by decide) (by decide) rfl (by decide) (by decide)
